import Mathlib

/-! Maze game: generation, walkability and the game loop.

A shallow embedding of `src/main.cpp`.

* C++ `int` is embedded as `Int`; statements therefore describe the runs in
  which signed arithmetic does not overflow (overflow is undefined in C++).
  `Uint32` clock values are embedded as `Nat` with explicit `% 2 ^ 32`.
* `std::vector<std::vector<int>>` of fixed size 25 x 25 is `Grid`; a read
  outside the vector is `none`, a store outside it changes nothing.
* The random sources (`std::shuffle` followed by `front`, and the
  `uniform_int_distribution` for the goal) are explicit inputs: a list of raw
  picks and two raw draws.
* The `while (!stack.empty())` loop is run with fuel; `none` means the fuel ran
  out before the stack emptied.
-/

namespace MazeGame

/-! ## Constants (lines 13-21) -/

def SCREEN_WIDTH : Int := 800
def MAZE_WIDTH : Int := 25
def TILE_SIZE : Int := Int.tdiv SCREEN_WIDTH MAZE_WIDTH
def MAZE_HEIGHT : Int := MAZE_WIDTH
def INITIAL_LEVEL_SIZE : Int := 20
def LEVEL_INCREASE : Int := 5
def TIME_LIMIT : Nat := 25

/-! ## Grid -/

/-- The member `grid`: `MAZE_WIDTH` columns of `MAZE_HEIGHT` cells; the vector is never resized. -/
structure Grid where
  cells : List (List Int)
  width_ok : cells.length = 25
  height_ok : ∀ col ∈ cells, col.length = 25

/-- Read of `grid[x][y]`; `none` when the index pair is outside the vector. -/
def Grid.read (g : Grid) (x y : Int) : Option Int :=
  if 0 ≤ x ∧ 0 ≤ y then
    match g.cells[x.toNat]? with
    | some col => col[y.toNat]?
    | none => none
  else none

/-- Assignment `grid[x][y] = v`; outside the vector nothing is stored. -/
def Grid.write (g : Grid) (x y v : Int) : Grid :=
  if 0 ≤ x ∧ 0 ≤ y then
    { cells := g.cells.set x.toNat ((g.cells.getD x.toNat []).set y.toNat v)
      width_ok := by rw [List.length_set]; exact g.width_ok
      height_ok := by
        intro col hcol
        by_cases hx : x.toNat < g.cells.length
        · rcases List.mem_or_eq_of_mem_set hcol with h | h
          · exact g.height_ok col h
          · subst h
            rw [List.length_set, List.getD_eq_getElem _ _ hx]
            exact g.height_ok _ (List.getElem_mem hx)
        · rw [List.set_eq_of_length_le (Nat.le_of_not_lt hx)] at hcol
          exact g.height_ok col hcol }
  else g

/-- The grid built by the constructor's initialiser: every cell is 1 (WALL). -/
def Grid.allWall : Grid where
  cells := List.replicate 25 (List.replicate 25 1)
  width_ok := by simp
  height_ok := by
    intro col hcol
    rw [List.eq_of_mem_replicate hcol]
    simp

/-! ## The maze (lines 23-109) -/

/-- The struct `Player` (lines 23-25). -/
structure Player where
  x : Int
  y : Int
deriving DecidableEq

/-- The data members of the struct `Maze` (lines 28-30). -/
structure Maze where
  grid : Grid
  player : Player
  startX : Int
  startY : Int
  endX : Int
  endY : Int

/-- The outcomes of the random sources used by one call of `generateMaze`: the two raw
draws behind `dis(gen)` (lines 58-59) and one raw pick per `std::shuffle` (line 93). -/
structure Rand where
  goalX : Nat
  goalY : Nat
  picks : List Nat

/-- The vector `directions` of line 75. -/
def directions : List (Int × Int) := [(1, 0), (-1, 0), (0, 1), (0, -1)]

/-- A value of `std::uniform_int_distribution<>(a, b)`: the raw draw mapped into `[a, b]`. -/
def dis (a b : Int) (raw : Nat) : Int := a + (raw : Int) % (b - a + 1)

/-- Lines 82-89: the directions whose target is strictly inside the extent and still WALL. -/
def validDirections (grid : Grid) (maze_size x y : Int) : List (Int × Int) :=
  directions.filter (fun dir =>
    let nx := x + dir.1 * 2
    let ny := y + dir.2 * 2
    decide (nx > 0) && decide (ny > 0) && decide (nx < maze_size - 1)
      && decide (ny < maze_size - 1) && decide (grid.read nx ny = some 1))

/-- Lines 93-94: `std::shuffle` followed by `front()` yields one element of the vector;
which one is decided by the raw pick. -/
def shuffleFront (v : List (Int × Int)) (pick : Nat) : Int × Int :=
  v.getD (pick % v.length) (0, 0)

/-- The variables the carving loop works on. -/
structure CarveState where
  grid : Grid
  stack : List (Int × Int)
  picks : List Nat

/-- One iteration of the loop of lines 77-101, the popped top being `(x, y)` and `rest`
the stack below it. -/
def carveStep (maze_size : Int) (grid : Grid) (x y : Int) (rest : List (Int × Int))
    (picks : List Nat) : CarveState :=
  let valid := validDirections grid maze_size x y
  if valid.isEmpty then
    { grid := grid, stack := rest, picks := picks }
  else
    let dir := shuffleFront valid (picks.headD 0)
    let nx := x + dir.1 * 2
    let ny := y + dir.2 * 2
    let grid1 := grid.write (x + dir.1) (y + dir.2) 0
    let grid2 := grid1.write nx ny 0
    { grid := grid2, stack := (nx, ny) :: (x, y) :: rest, picks := picks.tail }

/-- The loop `while (!stack.empty())` of lines 77-101 with fuel: `some grid` when the stack
emptied, `none` when the fuel ran out first. -/
def carveLoop : Nat → Int → CarveState → Option Grid
  | 0, _, s =>
    match s.stack with
    | [] => some s.grid
    | _ :: _ => none
  | fuel + 1, maze_size, s =>
    match s.stack with
    | [] => some s.grid
    | (x, y) :: rest => carveLoop fuel maze_size (carveStep maze_size s.grid x y rest s.picks)

/-- Lines 43-47: the two nested `for` loops that store 1 over the extent. -/
def resetGrid (grid : Grid) (maze_size : Int) : Grid :=
  (List.range maze_size.toNat).foldl
    (fun g (x : Nat) =>
      (List.range maze_size.toNat).foldl (fun g1 (y : Nat) => g1.write (x : Int) (y : Int) 1) g)
    grid

/-- Lines 52-68: the goal for the given (already capped) extent and level, after the clamp. -/
def placeGoal (maze_size level startX startY : Int) (rawX rawY : Nat) : Int × Int :=
  let e : Int × Int :=
    if Int.tmod level 10 = 0 then
      (dis 2 (maze_size - 2) rawX, dis 2 (maze_size - 2) rawY)
    else
      (min (startX + Int.tdiv (level * TILE_SIZE) 10) (maze_size - 2),
       min (startY + Int.tdiv (level * TILE_SIZE) 10) (maze_size - 2))
  let endX := if e.1 ≤ startX then startX + 2 else e.1
  let endY := if e.2 ≤ startY then startY + 2 else e.2
  (endX, endY)

/-- Lines 70-101: push the start, open it, and run the loop. -/
def carve (fuel : Nat) (maze_size : Int) (grid : Grid) (startX startY : Int)
    (picks : List Nat) : Option Grid :=
  carveLoop fuel maze_size
    { grid := grid.write startX startY 0, stack := [(startX, startY)], picks := picks }

/-- Fuel given to the loop by `generateMaze`: twice the number of cells plus one. -/
def carveFuel : Nat := 2 * (25 * 25) + 1

/-- The method `Maze::generateMaze` (lines 39-104). -/
def generateMaze (rnd : Rand) (m : Maze) (maze_size level : Int) : Option Maze :=
  let maze_size := min maze_size MAZE_WIDTH
  let maze_size := min maze_size MAZE_HEIGHT
  let grid0 := resetGrid m.grid maze_size
  let startX : Int := 1
  let startY : Int := 1
  let goal := placeGoal maze_size level startX startY rnd.goalX rnd.goalY
  match carve carveFuel maze_size grid0 startX startY rnd.picks with
  | none => none
  | some grid1 =>
    some { m with grid := grid1.write goal.1 goal.2 0,
                  startX := startX, startY := startY, endX := goal.1, endY := goal.2 }

/-- The constructor `Maze::Maze(int level)` (lines 32-37). The members other than `grid`
have no initialiser; they are all assigned before they are read. -/
def Maze.new (rnd : Rand) (level : Int) : Option Maze :=
  let maze_size := INITIAL_LEVEL_SIZE + level * LEVEL_INCREASE
  match generateMaze rnd
      { grid := Grid.allWall, player := ⟨0, 0⟩, startX := 0, startY := 0, endX := 0, endY := 0 }
      maze_size level with
  | none => none
  | some m => some { m with player := ⟨m.startX, m.startY⟩ }

/-- The method `Maze::isWalkable` (lines 106-108). The conjunction is short-circuit: the
cell is read only after the four bound tests passed; `none` would be a read outside the
vector. -/
def isWalkable (grid : Grid) (x y : Int) : Option Bool :=
  if x ≥ 0 ∧ x < MAZE_WIDTH ∧ y ≥ 0 ∧ y < MAZE_HEIGHT then
    match grid.read x y with
    | some c => some (decide (c = 0))
    | none => none
  else some false

/-! ## The game loop (lines 199-241) -/

/-- The four entries of the keyboard state the loop reads. -/
structure Keys where
  up : Bool
  down : Bool
  left : Bool
  right : Bool

/-- What one iteration of the main loop receives from outside: whether an `SDL_QUIT` event
was polled, the clock read of line 215, the keyboard state, and, for the case that a new
maze is built, its random outcomes and the clock read of line 240. -/
structure TickInput where
  quit : Bool
  currentTime : Nat
  keys : Keys
  rnd : Rand
  restartTime : Nat

/-- The variables of `main` the loop works on. -/
structure Game where
  level : Int
  maze : Maze
  running : Bool
  startTime : Nat

/-- Subtraction of `Uint32` values. -/
def u32sub (a b : Nat) : Nat := (a % 2 ^ 32 + (2 ^ 32 - b % 2 ^ 32)) % 2 ^ 32

/-- The constant `timeLimit` of line 206. -/
def timeLimit : Nat := TIME_LIMIT * 1000

/-- Lines 223-225, the key being pressed. -/
def moveUp (m : Maze) : Maze :=
  if isWalkable m.grid m.player.x (m.player.y - 1) = some true then
    { m with player := { m.player with y := m.player.y - 1 } } else m

/-- Lines 226-228, the key being pressed. -/
def moveDown (m : Maze) : Maze :=
  if isWalkable m.grid m.player.x (m.player.y + 1) = some true then
    { m with player := { m.player with y := m.player.y + 1 } } else m

/-- Lines 229-231, the key being pressed. -/
def moveLeft (m : Maze) : Maze :=
  if isWalkable m.grid (m.player.x - 1) m.player.y = some true then
    { m with player := { m.player with x := m.player.x - 1 } } else m

/-- Lines 232-234, the key being pressed. -/
def moveRight (m : Maze) : Maze :=
  if isWalkable m.grid (m.player.x + 1) m.player.y = some true then
    { m with player := { m.player with x := m.player.x + 1 } } else m

/-- Lines 223-234: the four key tests in source order. -/
def applyMoves (keys : Keys) (m : Maze) : Maze :=
  let m1 := if keys.up then moveUp m else m
  let m2 := if keys.down then moveDown m1 else m1
  let m3 := if keys.left then moveLeft m2 else m2
  if keys.right then moveRight m3 else m3

/-- The body of `while (running)` (lines 209-241), rendering left out. -/
def tick (inp : TickInput) (s : Game) : Option Game :=
  let running1 := if inp.quit then false else s.running
  let elapsedTime := u32sub inp.currentTime s.startTime
  let running2 := if elapsedTime > timeLimit then false else running1
  let m := applyMoves inp.keys s.maze
  if m.player.x = m.endX ∧ m.player.y = m.endY then
    match Maze.new inp.rnd (s.level + 1) with
    | none => none
    | some m2 =>
      some { level := s.level + 1, maze := m2, running := running2,
             startTime := inp.restartTime % 2 ^ 32 }
  else
    some { s with maze := m, running := running2 }

/-- The loop `while (running)`: one input per iteration, stopping when `running` is false. -/
def gameLoop : List TickInput → Game → Option Game
  | [], s => some s
  | inp :: rest, s =>
    if s.running then
      match tick inp s with
      | none => none
      | some s1 => gameLoop rest s1
    else some s

/-! ## Vocabulary of the specification -/

/-- The extent used for a level: the constructor's `maze_size` after the two `std::min`. -/
def levelExtent (level : Int) : Int :=
  min (min (INITIAL_LEVEL_SIZE + level * LEVEL_INCREASE) MAZE_WIDTH) MAZE_HEIGHT

/-- All index pairs of the 25 x 25 grid. -/
def allCells : List (Int × Int) :=
  ((List.range 25).product (List.range 25)).map (fun p => ((p.1 : Int), (p.2 : Int)))

/-- Number of cells strictly inside the extent that still hold 1 (WALL): the unvisited
cells the carving loop can still open. -/
def wallCount (grid : Grid) (maze_size : Int) : Nat :=
  allCells.countP (fun c =>
    decide (0 < c.1 ∧ 0 < c.2 ∧ c.1 < maze_size - 1 ∧ c.2 < maze_size - 1
      ∧ grid.read c.1 c.2 = some 1))

/-- Two cells are 4-directionally adjacent. -/
def Adjacent (p q : Int × Int) : Prop :=
  (p.1 = q.1 ∧ (p.2 = q.2 + 1 ∨ q.2 = p.2 + 1)) ∨ (p.2 = q.2 ∧ (p.1 = q.1 + 1 ∨ q.1 = p.1 + 1))

/-- A path of OPEN cells (cells holding 0) from `p` to `q`, consecutive cells adjacent. -/
inductive OpenPath (grid : Grid) : Int × Int → Int × Int → Prop
  | start (p : Int × Int) : grid.read p.1 p.2 = some 0 → OpenPath grid p p
  | step (p q r : Int × Int) : OpenPath grid p q → Adjacent q r →
      grid.read r.1 r.2 = some 0 → OpenPath grid p r

/-- A lattice room that is OPEN: both coordinates odd. -/
def isRoom (grid : Grid) (c : Int × Int) : Bool :=
  decide (c.1 % 2 = 1 ∧ c.2 % 2 = 1 ∧ grid.read c.1 c.2 = some 0)

/-- An edge: an OPEN cell with exactly one even coordinate lying between two rooms. -/
def isEdge (grid : Grid) (c : Int × Int) : Bool :=
  decide (grid.read c.1 c.2 = some 0 ∧
    ((c.1 % 2 = 0 ∧ c.2 % 2 = 1 ∧ isRoom grid (c.1 - 1, c.2) = true
        ∧ isRoom grid (c.1 + 1, c.2) = true)
     ∨ (c.1 % 2 = 1 ∧ c.2 % 2 = 0 ∧ isRoom grid (c.1, c.2 - 1) = true
        ∧ isRoom grid (c.1, c.2 + 1) = true)))

/-- Number of rooms of the grid. -/
def roomCount (grid : Grid) : Nat := allCells.countP (isRoom grid)

/-- Number of edges of the grid. -/
def edgeCount (grid : Grid) : Nat := allCells.countP (isEdge grid)

/-- What holds of grid and stack at every test of `!stack.empty()`, when the extent was all
WALL before the start was opened. -/
structure CarveInv (maze_size : Int) (g : Grid) (stack : List (Int × Int)) : Prop where
  stack_ok : ∀ c ∈ stack, c.1 % 2 = 1 ∧ c.2 % 2 = 1 ∧ OpenPath g (1, 1) c
  connected : ∀ x y, 0 ≤ x → x < maze_size → 0 ≤ y → y < maze_size →
    g.read x y = some 0 → OpenPath g (1, 1) (x, y)
  binary : ∀ x y, 0 ≤ x → x < maze_size → 0 ≤ y → y < maze_size →
    g.read x y = some 0 ∨ g.read x y = some 1
  frontier : ∀ x y dir, 0 ≤ x → x < maze_size → 0 ≤ y → y < maze_size →
    x % 2 = 1 → y % 2 = 1 → g.read x y = some 0 →
    dir ∈ validDirections g maze_size x y → (x, y) ∈ stack
  flanked : ∀ x y, 0 ≤ x → x < maze_size → 0 ≤ y → y < maze_size → g.read x y = some 0 →
    (x % 2 = 0 → y % 2 = 1 → g.read (x - 1) y = some 0 ∧ g.read (x + 1) y = some 0) ∧
    (x % 2 = 1 → y % 2 = 0 → g.read x (y - 1) = some 0 ∧ g.read x (y + 1) = some 0) ∧
    ¬ (x % 2 = 0 ∧ y % 2 = 0)

/-- A cell with both coordinates odd. -/
def roomCell (c : Int × Int) : Bool := decide (c.1 % 2 = 1 ∧ c.2 % 2 = 1)

/-- A cell with exactly one even coordinate. -/
def edgeCell (c : Int × Int) : Bool :=
  decide ((c.1 % 2 = 0 ∧ c.2 % 2 = 1) ∨ (c.1 % 2 = 1 ∧ c.2 % 2 = 0))

/-- Number of OPEN cells of a given kind. -/
def openCount (kind : Int × Int → Bool) (g : Grid) : Nat :=
  allCells.countP (fun c => kind c && decide (g.read c.1 c.2 = some 0))

/-! ## Runs of the game used in the statements -/

/-- Lines 199-208 followed by the loop: level 1, `Maze maze(level)`, `running = true`, the
clock read once, then one tick per input while `running` holds. -/
def runGame (rnd : Rand) (startTime : Nat) (inputs : List TickInput) : Option Game :=
  match Maze.new rnd 1 with
  | none => none
  | some m =>
    gameLoop inputs { level := 1, maze := m, running := true, startTime := startTime % 2 ^ 32 }

/-- The value of `running` after the event loop and the time check of a tick. -/
def runningAfter (inp : TickInput) (s : Game) : Bool :=
  if u32sub inp.currentTime s.startTime > timeLimit then false
  else if inp.quit then false else s.running

/-- The player of a maze stands on an OPEN cell of the grid. -/
def PlayerOnOpen (m : Maze) : Prop := isWalkable m.grid m.player.x m.player.y = some true

/-- A small game state: an all-WALL grid in which `(1, 1)` and `(2, 1)` were
opened, player on `(1, 1)`, goal `(4, 4)`, clock started at 0. -/
def sampleGame : Game :=
  { level := 1
    maze := { grid := (Grid.allWall.write 1 1 0).write 2 1 0, player := ⟨1, 1⟩,
              startX := 1, startY := 1, endX := 4, endY := 4 }
    running := true
    startTime := 0 }

/-! ## A concrete run of the carving loop -/

/-- Raw picks for the first twelve shuffles; every later shuffle gets 0. -/
def demoPicks : List Nat := [0, 0, 1, 0, 1, 1, 1, 1, 2, 0, 1, 0]

/-- The columns `grid[0]` .. `grid[24]` the carving loop leaves for `demoPicks` on the full
extent. -/
def demoCells : List (List Int) :=
   [
    [1, 1, 1, 1, 1, 1, 1, 1, 1, 1, 1, 1, 1, 1, 1, 1, 1, 1, 1, 1, 1, 1, 1, 1, 1],
    [1, 0, 1, 0, 0, 0, 0, 0, 0, 0, 1, 0, 0, 0, 1, 0, 0, 0, 1, 0, 0, 0, 1, 0, 1],
    [1, 0, 1, 0, 1, 0, 1, 1, 1, 0, 1, 0, 1, 0, 1, 0, 1, 0, 1, 0, 1, 0, 1, 0, 1],
    [1, 0, 1, 0, 1, 0, 0, 0, 1, 0, 1, 0, 1, 0, 1, 0, 1, 0, 1, 0, 1, 0, 1, 0, 1],
    [1, 0, 1, 1, 1, 1, 1, 0, 1, 0, 1, 0, 1, 0, 1, 0, 1, 0, 1, 0, 1, 0, 1, 0, 1],
    [1, 0, 0, 0, 1, 0, 0, 0, 1, 0, 1, 0, 1, 0, 1, 0, 1, 0, 1, 0, 1, 0, 1, 0, 1],
    [1, 1, 1, 0, 1, 0, 1, 1, 1, 0, 1, 0, 1, 0, 1, 0, 1, 0, 1, 0, 1, 0, 1, 0, 1],
    [1, 0, 1, 0, 0, 0, 1, 0, 1, 0, 1, 0, 1, 0, 1, 0, 1, 0, 1, 0, 1, 0, 1, 0, 1],
    [1, 0, 1, 1, 1, 1, 1, 0, 1, 0, 1, 0, 1, 0, 1, 0, 1, 0, 1, 0, 1, 0, 1, 0, 1],
    [1, 0, 0, 0, 1, 0, 0, 0, 1, 0, 1, 0, 1, 0, 1, 0, 1, 0, 1, 0, 1, 0, 1, 0, 1],
    [1, 0, 1, 0, 1, 0, 1, 0, 1, 0, 1, 0, 1, 0, 1, 0, 1, 0, 1, 0, 1, 0, 1, 0, 1],
    [1, 0, 1, 0, 1, 0, 1, 0, 1, 0, 1, 0, 1, 0, 1, 0, 1, 0, 1, 0, 1, 0, 1, 0, 1],
    [1, 0, 1, 0, 1, 0, 1, 0, 1, 0, 1, 0, 1, 0, 1, 0, 1, 0, 1, 0, 1, 0, 1, 0, 1],
    [1, 0, 1, 0, 1, 0, 1, 0, 1, 0, 1, 0, 1, 0, 1, 0, 1, 0, 1, 0, 1, 0, 1, 0, 1],
    [1, 0, 1, 0, 1, 0, 1, 0, 1, 0, 1, 0, 1, 0, 1, 0, 1, 0, 1, 0, 1, 0, 1, 0, 1],
    [1, 0, 1, 0, 1, 0, 1, 0, 1, 0, 1, 0, 1, 0, 1, 0, 1, 0, 1, 0, 1, 0, 1, 0, 1],
    [1, 0, 1, 0, 1, 0, 1, 0, 1, 0, 1, 0, 1, 0, 1, 0, 1, 0, 1, 0, 1, 0, 1, 0, 1],
    [1, 0, 1, 0, 1, 0, 1, 0, 1, 0, 1, 0, 1, 0, 1, 0, 1, 0, 1, 0, 1, 0, 1, 0, 1],
    [1, 0, 1, 0, 1, 0, 1, 0, 1, 0, 1, 0, 1, 0, 1, 0, 1, 0, 1, 0, 1, 0, 1, 0, 1],
    [1, 0, 1, 0, 1, 0, 1, 0, 1, 0, 1, 0, 1, 0, 1, 0, 1, 0, 1, 0, 1, 0, 1, 0, 1],
    [1, 0, 1, 0, 1, 0, 1, 0, 1, 0, 1, 0, 1, 0, 1, 0, 1, 0, 1, 0, 1, 0, 1, 0, 1],
    [1, 0, 1, 0, 1, 0, 1, 0, 1, 0, 1, 0, 1, 0, 1, 0, 1, 0, 1, 0, 1, 0, 1, 0, 1],
    [1, 0, 1, 0, 1, 0, 1, 0, 1, 0, 1, 0, 1, 0, 1, 0, 1, 0, 1, 0, 1, 0, 1, 0, 1],
    [1, 0, 1, 0, 0, 0, 1, 0, 0, 0, 0, 0, 1, 0, 0, 0, 1, 0, 0, 0, 1, 0, 0, 0, 1],
    [1, 1, 1, 1, 1, 1, 1, 1, 1, 1, 1, 1, 1, 1, 1, 1, 1, 1, 1, 1, 1, 1, 1, 1, 1]]

/-- The grid with the columns `demoCells`. -/
def demoCarved : Grid where
  cells := demoCells
  width_ok := by decide
  height_ok := by decide

/-! ## Reading and writing -/

theorem Grid.read_eq_some_iff_bounds (g : Grid) (x y : Int) :
    (g.read x y).isSome = true ↔ (0 ≤ x ∧ x < 25 ∧ 0 ≤ y ∧ y < 25) := by
  unfold Grid.read
  by_cases h : 0 ≤ x ∧ 0 ≤ y
  · rw [if_pos h]
    by_cases hx : x.toNat < g.cells.length
    · rw [List.getElem?_eq_getElem hx]
      have hlen := g.height_ok _ (List.getElem_mem hx)
      have hw := g.width_ok
      simp only []
      by_cases hy : y.toNat < (g.cells[x.toNat]).length
      · rw [List.getElem?_eq_getElem hy]
        simp only [Option.isSome_some, true_iff]
        omega
      · rw [List.getElem?_eq_none (Nat.le_of_not_lt hy)]
        simp only [Option.isSome_none, Bool.false_eq_true, false_iff]
        omega
    · rw [List.getElem?_eq_none (Nat.le_of_not_lt hx)]
      have hw := g.width_ok
      simp only [Option.isSome_none, Bool.false_eq_true, false_iff]
      omega
  · rw [if_neg h]
    simp only [Option.isSome_none, Bool.false_eq_true, false_iff]
    omega

theorem Grid.read_write (g : Grid) (x y v a b : Int) :
    (g.write x y v).read a b =
      if (0 ≤ x ∧ x < 25 ∧ 0 ≤ y ∧ y < 25) ∧ a = x ∧ b = y then some v else g.read a b := by
  have hw := g.width_ok
  unfold Grid.write
  by_cases h : 0 ≤ x ∧ 0 ≤ y
  · rw [if_pos h]
    unfold Grid.read
    by_cases hab : 0 ≤ a ∧ 0 ≤ b
    · simp only [if_pos hab]
      rw [List.getElem?_set]
      by_cases hxa : x.toNat = a.toNat
      · rw [if_pos hxa]
        by_cases hx : x.toNat < g.cells.length
        · rw [if_pos hx]
          have hlen := g.height_ok _ (List.getElem_mem hx)
          simp only []
          rw [List.getElem?_set, List.getD_eq_getElem _ _ hx, hlen]
          have hax : a = x := by omega
          subst hax
          rw [List.getElem?_eq_getElem hx]
          simp only []
          by_cases hyb : y.toNat = b.toNat
          · have hby : b = y := by omega
            subst hby
            by_cases hy : b.toNat < 25
            · have hc : (0 ≤ a ∧ a < 25 ∧ 0 ≤ b ∧ b < 25) ∧ True ∧ b = b := ⟨by omega, trivial, rfl⟩
              rw [if_pos rfl, if_pos hy, if_pos hc]
            · have hc : ¬ ((0 ≤ a ∧ a < 25 ∧ 0 ≤ b ∧ b < 25) ∧ True ∧ b = b) := by omega
              rw [if_pos rfl, if_neg hy, if_neg hc]
              rw [List.getElem?_eq_none (by omega)]
          · have hc : ¬ ((0 ≤ a ∧ a < 25 ∧ 0 ≤ y ∧ y < 25) ∧ True ∧ b = y) := by omega
            rw [if_neg hyb, if_neg hc]
        · have hc : ¬ ((0 ≤ x ∧ x < 25 ∧ 0 ≤ y ∧ y < 25) ∧ a = x ∧ b = y) := by omega
          rw [if_neg hx, if_neg hc]
          rw [List.getElem?_eq_none (by omega)]
      · have hc : ¬ ((0 ≤ x ∧ x < 25 ∧ 0 ≤ y ∧ y < 25) ∧ a = x ∧ b = y) := by omega
        rw [if_neg hxa, if_neg hc]
    · have hc : ¬ ((0 ≤ x ∧ x < 25 ∧ 0 ≤ y ∧ y < 25) ∧ a = x ∧ b = y) := by omega
      simp only [if_neg hab]
      rw [if_neg hc]
  · have hc : ¬ ((0 ≤ x ∧ x < 25 ∧ 0 ≤ y ∧ y < 25) ∧ a = x ∧ b = y) := by omega
    rw [if_neg h, if_neg hc]


/-! ## The carving loop: case analysis and induction -/

theorem mem_directions (dir : Int × Int) :
    dir ∈ directions ↔ dir = (1, 0) ∨ dir = (-1, 0) ∨ dir = (0, 1) ∨ dir = (0, -1) := by
  simp [directions]

theorem mem_validDirections (grid : Grid) (maze_size x y : Int) (dir : Int × Int) :
    dir ∈ validDirections grid maze_size x y ↔
      dir ∈ directions ∧ 0 < x + dir.1 * 2 ∧ 0 < y + dir.2 * 2 ∧ x + dir.1 * 2 < maze_size - 1
        ∧ y + dir.2 * 2 < maze_size - 1 ∧ grid.read (x + dir.1 * 2) (y + dir.2 * 2) = some 1 := by
  unfold validDirections
  rw [List.mem_filter]
  simp only [gt_iff_lt, Bool.and_eq_true, decide_eq_true_eq]
  tauto

theorem shuffleFront_mem (v : List (Int × Int)) (pick : Nat) (hv : v ≠ []) :
    shuffleFront v pick ∈ v := by
  unfold shuffleFront
  have hpos : 0 < v.length := List.length_pos.mpr hv
  have hlt : pick % v.length < v.length := Nat.mod_lt _ hpos
  rw [List.getD_eq_getElem _ _ hlt]
  exact List.getElem_mem hlt

theorem carveStep_pop (maze_size : Int) (grid : Grid) (x y : Int) (rest : List (Int × Int))
    (picks : List Nat) (h : validDirections grid maze_size x y = []) :
    carveStep maze_size grid x y rest picks = { grid := grid, stack := rest, picks := picks } := by
  unfold carveStep
  simp [h]

theorem carveStep_carve (maze_size : Int) (grid : Grid) (x y : Int) (rest : List (Int × Int))
    (picks : List Nat) (h : validDirections grid maze_size x y ≠ []) :
    ∃ dir, dir ∈ validDirections grid maze_size x y ∧
      carveStep maze_size grid x y rest picks =
        { grid := (grid.write (x + dir.1) (y + dir.2) 0).write (x + dir.1 * 2) (y + dir.2 * 2) 0,
          stack := (x + dir.1 * 2, y + dir.2 * 2) :: (x, y) :: rest,
          picks := picks.tail } := by
  refine ⟨shuffleFront (validDirections grid maze_size x y) (picks.headD 0),
    shuffleFront_mem _ _ h, ?_⟩
  unfold carveStep
  have hne : (validDirections grid maze_size x y).isEmpty = false := by
    cases hv : validDirections grid maze_size x y with
    | nil => exact absurd hv h
    | cons a l => rfl
  simp [hne]

/-- Induction over the loop: a property of grid and stack that every pop and every carve
preserves holds, with the empty stack, for the grid the loop returns. -/
theorem carveLoop_invariant (maze_size : Int) (P : Grid → List (Int × Int) → Prop)
    (hpop : ∀ grid x y rest, P grid ((x, y) :: rest) →
      validDirections grid maze_size x y = [] → P grid rest)
    (hcarve : ∀ grid x y rest dir, P grid ((x, y) :: rest) →
      dir ∈ validDirections grid maze_size x y →
      P ((grid.write (x + dir.1) (y + dir.2) 0).write (x + dir.1 * 2) (y + dir.2 * 2) 0)
        ((x + dir.1 * 2, y + dir.2 * 2) :: (x, y) :: rest)) :
    ∀ (fuel : Nat) (s : CarveState) (out : Grid), P s.grid s.stack →
      carveLoop fuel maze_size s = some out → P out [] := by
  intro fuel
  induction fuel with
  | zero =>
    intro s out hP hrun
    unfold carveLoop at hrun
    cases hst : s.stack with
    | nil =>
      rw [hst] at hrun hP
      simp only [Option.some.injEq] at hrun
      rw [← hrun]; exact hP
    | cons top rest =>
      rw [hst] at hrun
      simp at hrun
  | succ fuel ih =>
    intro s out hP hrun
    unfold carveLoop at hrun
    cases hst : s.stack with
    | nil =>
      rw [hst] at hrun hP
      simp only [Option.some.injEq] at hrun
      rw [← hrun]; exact hP
    | cons top rest =>
      obtain ⟨x, y⟩ := top
      rw [hst] at hrun hP
      simp only [] at hrun
      by_cases hv : validDirections s.grid maze_size x y = []
      · rw [carveStep_pop _ _ _ _ _ _ hv] at hrun
        exact ih ⟨s.grid, rest, s.picks⟩ out (hpop s.grid x y rest hP hv) hrun
      · obtain ⟨dir, hdir, hstep⟩ := carveStep_carve maze_size s.grid x y rest s.picks hv
        rw [hstep] at hrun
        exact ih ⟨_, _, _⟩ out (hcarve s.grid x y rest dir hP hdir) hrun

/-! ## Termination of the carving loop -/

theorem mem_allCells (c : Int × Int) :
    c ∈ allCells ↔ 0 ≤ c.1 ∧ c.1 < 25 ∧ 0 ≤ c.2 ∧ c.2 < 25 := by
  unfold allCells
  rw [List.mem_map]
  constructor
  · rintro ⟨⟨a, b⟩, hab, rfl⟩
    rw [List.pair_mem_product, List.mem_range, List.mem_range] at hab
    simp only
    omega
  · intro h
    refine ⟨(c.1.toNat, c.2.toNat), ?_, ?_⟩
    · rw [List.pair_mem_product, List.mem_range, List.mem_range]
      omega
    · obtain ⟨a, b⟩ := c
      simp only [Prod.mk.injEq] at h ⊢
      omega

theorem countP_lt_of_imp {α : Type} (p q : α → Bool) (l : List α) (a : α)
    (himp : ∀ c ∈ l, q c = true → p c = true) (ha : a ∈ l) (hpa : p a = true)
    (hqa : q a = false) : l.countP q < l.countP p := by
  induction l with
  | nil => cases ha
  | cons b l ih =>
    have himp2 : ∀ c ∈ l, q c = true → p c = true :=
      fun c hc => himp c (List.mem_cons_of_mem _ hc)
    have hle : l.countP q ≤ l.countP p := List.countP_mono_left himp2
    rcases List.mem_cons.mp ha with hab | hal
    · subst hab
      rw [List.countP_cons_of_pos _ _ hpa, List.countP_cons_of_neg _ _ (by simp [hqa])]
      omega
    · have hlt := ih himp2 hal
      by_cases hqb : q b = true
      · have hpb := himp b (List.mem_cons_self _ _) hqb
        rw [List.countP_cons_of_pos _ _ hpb, List.countP_cons_of_pos _ _ hqb]
        omega
      · rw [List.countP_cons_of_neg _ _ hqb]
        by_cases hpb : p b = true
        · rw [List.countP_cons_of_pos _ _ hpb]; omega
        · rw [List.countP_cons_of_neg _ _ hpb]; exact hlt

/-- A carve stores 0 in a cell that was counted as WALL, so the count strictly drops. -/
theorem wallCount_carve (maze_size : Int) (grid : Grid) (x y : Int) (dir : Int × Int)
    (hdir : dir ∈ validDirections grid maze_size x y) :
    wallCount ((grid.write (x + dir.1) (y + dir.2) 0).write (x + dir.1 * 2) (y + dir.2 * 2) 0)
      maze_size < wallCount grid maze_size := by
  rw [mem_validDirections] at hdir
  obtain ⟨_, h1, h2, h3, h4, hw⟩ := hdir
  have hb : 0 ≤ x + dir.1 * 2 ∧ x + dir.1 * 2 < 25 ∧ 0 ≤ y + dir.2 * 2 ∧ y + dir.2 * 2 < 25 := by
    rw [← Grid.read_eq_some_iff_bounds grid, hw]; rfl
  unfold wallCount
  apply countP_lt_of_imp _ _ allCells (x + dir.1 * 2, y + dir.2 * 2)
  · intro c _ hc
    simp only [decide_eq_true_eq] at hc ⊢
    obtain ⟨c1, c2, c3, c4, hr⟩ := hc
    refine ⟨c1, c2, c3, c4, ?_⟩
    rw [Grid.read_write, Grid.read_write] at hr
    split_ifs at hr with ha hb2
    · simp at hr
    · simp at hr
    · exact hr
  · rw [mem_allCells]; exact hb
  · simp only [decide_eq_true_eq]
    exact ⟨h1, h2, h3, h4, hw⟩
  · simp only [decide_eq_false_iff_not, not_and]
    intro _ _ _ _
    rw [Grid.read_write, if_pos ⟨hb, rfl, rfl⟩]
    simp

/-- The loop returns as soon as the fuel reaches twice the WALL count plus the stack height. -/
theorem carveLoop_terminates (maze_size : Int) :
    ∀ (fuel : Nat) (s : CarveState),
      2 * wallCount s.grid maze_size + s.stack.length ≤ fuel →
      ∃ out, carveLoop fuel maze_size s = some out := by
  intro fuel
  induction fuel with
  | zero =>
    intro s hs
    unfold carveLoop
    cases hst : s.stack with
    | nil => exact ⟨s.grid, rfl⟩
    | cons top rest => rw [hst] at hs; simp at hs
  | succ fuel ih =>
    intro s hs
    unfold carveLoop
    cases hst : s.stack with
    | nil => exact ⟨s.grid, rfl⟩
    | cons top rest =>
      obtain ⟨x, y⟩ := top
      rw [hst] at hs
      simp only [List.length_cons] at hs
      simp only []
      by_cases hv : validDirections s.grid maze_size x y = []
      · rw [carveStep_pop _ _ _ _ _ _ hv]
        apply ih
        simp only []
        omega
      · obtain ⟨dir, hdir, hstep⟩ := carveStep_carve maze_size s.grid x y rest s.picks hv
        rw [hstep]
        apply ih
        have hlt := wallCount_carve maze_size s.grid x y dir hdir
        simp only [List.length_cons]
        omega

theorem wallCount_le (grid : Grid) (maze_size : Int) : wallCount grid maze_size ≤ 625 := by
  unfold wallCount
  have h := List.countP_le_length (l := allCells)
    (fun c => decide (0 < c.1 ∧ 0 < c.2 ∧ c.1 < maze_size - 1 ∧ c.2 < maze_size - 1
      ∧ grid.read c.1 c.2 = some 1))
  have hlen : allCells.length = 625 := by
    unfold allCells
    rw [List.length_map]
    exact (List.length_product _ _).trans (by rw [List.length_range])
  omega

theorem carve_isSome (maze_size : Int) (grid : Grid) (startX startY : Int) (picks : List Nat) :
    ∃ out, carve carveFuel maze_size grid startX startY picks = some out := by
  unfold carve
  apply carveLoop_terminates
  have h := wallCount_le (grid.write startX startY 0) maze_size
  simp only [List.length_cons, List.length_nil, carveFuel]
  omega

/-! ## What `generateMaze` and the constructor return -/

theorem Maze.new_eq (rnd : Rand) (level : Int) :
    ∃ carved,
      carve carveFuel (levelExtent level) (resetGrid Grid.allWall (levelExtent level)) 1 1
        rnd.picks = some carved ∧
      Maze.new rnd level =
        some { grid := carved.write
                 (placeGoal (levelExtent level) level 1 1 rnd.goalX rnd.goalY).1
                 (placeGoal (levelExtent level) level 1 1 rnd.goalX rnd.goalY).2 0
               player := ⟨1, 1⟩
               startX := 1
               startY := 1
               endX := (placeGoal (levelExtent level) level 1 1 rnd.goalX rnd.goalY).1
               endY := (placeGoal (levelExtent level) level 1 1 rnd.goalX rnd.goalY).2 } := by
  obtain ⟨carved, hc⟩ := carve_isSome (levelExtent level)
    (resetGrid Grid.allWall (levelExtent level)) 1 1 rnd.picks
  refine ⟨carved, hc, ?_⟩
  have hext : min (min (INITIAL_LEVEL_SIZE + level * LEVEL_INCREASE) MAZE_WIDTH) MAZE_HEIGHT
      = levelExtent level := rfl
  unfold Maze.new
  simp only []
  unfold generateMaze
  simp only []
  rw [hext, hc]

theorem levelExtent_of_pos (level : Int) (h : 1 ≤ level) : levelExtent level = 25 := by
  unfold levelExtent INITIAL_LEVEL_SIZE LEVEL_INCREASE MAZE_HEIGHT MAZE_WIDTH
  omega

theorem TILE_SIZE_eq : TILE_SIZE = 32 := by decide

/-- The goal on a level that is a multiple of 10: the two draws, each in `[2, 23]`. -/
theorem placeGoal_random (level : Int) (rawX rawY : Nat)
    (hmod : Int.tmod level 10 = 0) :
    placeGoal 25 level 1 1 rawX rawY = (2 + (rawX : Int) % 22, 2 + (rawY : Int) % 22) := by
  unfold placeGoal dis
  simp only [hmod, if_true]
  have hx : ¬ (2 + (rawX : Int) % (25 - 2 - 2 + 1) ≤ 1) := by omega
  have hy : ¬ (2 + (rawY : Int) % (25 - 2 - 2 + 1) ≤ 1) := by omega
  rw [if_neg hx, if_neg hy]
  norm_num

/-- The goal on the other levels: both coordinates `min (1 + level * 32 / 10) 23`. -/
theorem placeGoal_fixed (level : Int) (rawX rawY : Nat) (h : 1 ≤ level)
    (hmod : Int.tmod level 10 ≠ 0) :
    placeGoal 25 level 1 1 rawX rawY =
      (min (1 + level * 32 / 10) 23, min (1 + level * 32 / 10) 23) := by
  unfold placeGoal
  rw [TILE_SIZE_eq, Int.tdiv_eq_ediv (by omega) (by omega)]
  simp only [if_neg hmod]
  have hx : ¬ (min (1 + level * 32 / 10) (25 - 2) ≤ 1) := by omega
  rw [if_neg hx]
  norm_num

theorem placeGoal_bounds (level : Int) (rawX rawY : Nat) (h : 1 ≤ level) :
    2 ≤ (placeGoal 25 level 1 1 rawX rawY).1 ∧ (placeGoal 25 level 1 1 rawX rawY).1 ≤ 23 ∧
    2 ≤ (placeGoal 25 level 1 1 rawX rawY).2 ∧ (placeGoal 25 level 1 1 rawX rawY).2 ≤ 23 := by
  by_cases hmod : Int.tmod level 10 = 0
  · rw [placeGoal_random level rawX rawY hmod]
    simp only
    omega
  · rw [placeGoal_fixed level rawX rawY h hmod]
    simp only
    omega

/-! ## The concrete run -/

theorem Grid.ext_cells {g1 g2 : Grid} (h : g1.cells = g2.cells) : g1 = g2 := by
  cases g1
  cases g2
  simp only [] at h
  subst h
  rfl

theorem Grid.allWall_read (x y : Int) (h : 0 ≤ x ∧ x < 25 ∧ 0 ≤ y ∧ y < 25) :
    Grid.allWall.read x y = some 1 := by
  unfold Grid.read Grid.allWall
  rw [if_pos ⟨h.1, h.2.2.1⟩]
  simp only []
  rw [List.getElem?_replicate, if_pos (by omega)]
  simp only []
  rw [List.getElem?_replicate, if_pos (by omega)]

theorem list_set_same {α : Type} (l : List α) (i : Nat) (v : α) (h : l[i]? = some v) :
    l.set i v = l := by
  induction l generalizing i with
  | nil => simp at h
  | cons a l ih =>
    cases i with
    | zero =>
      simp only [List.getElem?_cons_zero, Option.some.injEq] at h
      rw [List.set_cons_zero, h]
    | succ i =>
      simp only [List.getElem?_cons_succ] at h
      rw [List.set_cons_succ, ih i h]

/-- Storing the value a cell already holds leaves the grid as it is. -/
theorem Grid.write_same (g : Grid) (x y v : Int) (h : g.read x y = some v) :
    g.write x y v = g := by
  apply Grid.ext_cells
  unfold Grid.read at h
  unfold Grid.write
  by_cases hb : 0 ≤ x ∧ 0 ≤ y
  · rw [if_pos hb] at h
    rw [if_pos hb]
    simp only []
    cases hcol : g.cells[x.toNat]? with
    | none => rw [hcol] at h; cases h
    | some col =>
      rw [hcol] at h
      simp only [] at h
      rw [List.getD_eq_getElem?_getD, hcol, Option.getD_some, list_set_same col _ _ h]
      exact list_set_same _ _ _ hcol
  · rw [if_neg hb] at h
    cases h

theorem foldl_fixed {α β : Type} (f : β → α → β) (b : β) (l : List α)
    (h : ∀ a ∈ l, f b a = b) : l.foldl f b = b := by
  induction l with
  | nil => rfl
  | cons a l ih =>
    rw [List.foldl_cons, h a (List.mem_cons_self _ _)]
    exact ih (fun c hc => h c (List.mem_cons_of_mem _ hc))

/-- The reset of lines 43-47 leaves the all-WALL grid of the constructor as it is. -/
theorem resetGrid_allWall : resetGrid Grid.allWall 25 = Grid.allWall := by
  unfold resetGrid
  apply foldl_fixed
  intro x hx
  apply foldl_fixed
  intro y hy
  have hx2 : x < 25 := by simpa using hx
  have hy2 : y < 25 := by simpa using hy
  exact Grid.write_same _ _ _ _ (Grid.allWall_read x y (by omega))

set_option maxRecDepth 100000 in
/-- The carving loop on the full extent of an all-WALL grid with `demoPicks` returns
`demoCarved`. -/
theorem carve_demo :
    carve carveFuel 25 (resetGrid Grid.allWall 25) 1 1 demoPicks = some demoCarved := by
  have key : (carve carveFuel 25 Grid.allWall 1 1 demoPicks).map Grid.cells
      = some demoCells := by decide!
  rw [resetGrid_allWall]
  obtain ⟨out, hout⟩ := carve_isSome 25 Grid.allWall 1 1 demoPicks
  rw [hout] at key ⊢
  rw [Option.map_some', Option.some.injEq] at key
  rw [Option.some.injEq]
  exact Grid.ext_cells key

/-- The maze the constructor returns for a level >= 1 when the picks are `demoPicks`. -/
theorem Maze.new_demo (level : Int) (h : 1 ≤ level) (rawX rawY : Nat) :
    Maze.new ⟨rawX, rawY, demoPicks⟩ level =
      some { grid := demoCarved.write (placeGoal 25 level 1 1 rawX rawY).1
               (placeGoal 25 level 1 1 rawX rawY).2 0
             player := ⟨1, 1⟩
             startX := 1
             startY := 1
             endX := (placeGoal 25 level 1 1 rawX rawY).1
             endY := (placeGoal 25 level 1 1 rawX rawY).2 } := by
  obtain ⟨carved, hc, hm⟩ := Maze.new_eq ⟨rawX, rawY, demoPicks⟩ level
  rw [levelExtent_of_pos level h] at hc hm
  simp only [] at hc hm
  rw [carve_demo, Option.some.injEq] at hc
  rw [hm, ← hc]

/-! ## Walkability and the start cell -/

theorem isWalkable_eq (grid : Grid) (x y : Int) :
    isWalkable grid x y =
      some (decide (0 ≤ x ∧ x < 25 ∧ 0 ≤ y ∧ y < 25 ∧ grid.read x y = some 0)) := by
  unfold isWalkable MAZE_HEIGHT MAZE_WIDTH
  by_cases hb : x ≥ 0 ∧ x < 25 ∧ y ≥ 0 ∧ y < 25
  · rw [if_pos hb]
    have hsome := (Grid.read_eq_some_iff_bounds grid x y).mpr hb
    cases hr : grid.read x y with
    | none => rw [hr] at hsome; cases hsome
    | some c =>
      simp only [Option.some.injEq, decide_eq_decide]
      constructor
      · intro hc; exact ⟨hb.1, hb.2.1, hb.2.2.1, hb.2.2.2, hc⟩
      · intro hc; exact hc.2.2.2.2
  · rw [if_neg hb]
    simp only [Option.some.injEq]
    symm
    rw [decide_eq_false_iff_not]
    intro hc
    exact hb ⟨hc.1, hc.2.1, hc.2.2.1, hc.2.2.2.1⟩

theorem isWalkable_true_iff (grid : Grid) (x y : Int) :
    isWalkable grid x y = some true ↔ grid.read x y = some 0 := by
  rw [isWalkable_eq]
  simp only [Option.some.injEq, decide_eq_true_eq]
  constructor
  · intro h; exact h.2.2.2.2
  · intro h
    have hb := (Grid.read_eq_some_iff_bounds grid x y).mp (by rw [h]; rfl)
    exact ⟨hb.1, hb.2.1, hb.2.2.1, hb.2.2.2, h⟩

/-- Storing 0 somewhere never closes an OPEN cell. -/
theorem Grid.read_write_zero (grid : Grid) (x y a b : Int) (h : grid.read a b = some 0) :
    (grid.write x y 0).read a b = some 0 := by
  rw [Grid.read_write]
  split_ifs
  · rfl
  · exact h

theorem carve_start_open (fuel : Nat) (maze_size : Int) (grid : Grid) (picks : List Nat)
    (out : Grid) (h : carve fuel maze_size grid 1 1 picks = some out) :
    out.read 1 1 = some 0 := by
  unfold carve at h
  refine carveLoop_invariant maze_size (fun g _ => g.read 1 1 = some 0) ?_ ?_ fuel _ out ?_ h
  · intro g x y rest hP _; exact hP
  · intro g x y rest dir hP _
    exact Grid.read_write_zero _ _ _ _ _ (Grid.read_write_zero _ _ _ _ _ hP)
  · simp only []
    rw [Grid.read_write, if_pos]
    exact ⟨by omega, rfl, rfl⟩

/-- The constructor always returns a maze; its player stands on the start `(1, 1)`, which is
OPEN. -/
theorem Maze.new_start (rnd : Rand) (level : Int) :
    ∃ m, Maze.new rnd level = some m ∧ m.player = ⟨1, 1⟩ ∧ m.startX = 1 ∧ m.startY = 1 ∧
      m.grid.read 1 1 = some 0 := by
  obtain ⟨carved, hc, hm⟩ := Maze.new_eq rnd level
  refine ⟨_, hm, rfl, rfl, rfl, ?_⟩
  exact Grid.read_write_zero _ _ _ _ _ (carve_start_open _ _ _ _ _ hc)

/-! ## The moves of one tick -/

theorem moveUp_spec (m : Maze) :
    (moveUp m).grid = m.grid ∧ (moveUp m).endX = m.endX ∧ (moveUp m).endY = m.endY ∧
      (PlayerOnOpen m → PlayerOnOpen (moveUp m)) := by
  unfold moveUp PlayerOnOpen
  split_ifs with h
  · exact ⟨rfl, rfl, rfl, fun _ => h⟩
  · exact ⟨rfl, rfl, rfl, fun h0 => h0⟩

theorem moveDown_spec (m : Maze) :
    (moveDown m).grid = m.grid ∧ (moveDown m).endX = m.endX ∧ (moveDown m).endY = m.endY ∧
      (PlayerOnOpen m → PlayerOnOpen (moveDown m)) := by
  unfold moveDown PlayerOnOpen
  split_ifs with h
  · exact ⟨rfl, rfl, rfl, fun _ => h⟩
  · exact ⟨rfl, rfl, rfl, fun h0 => h0⟩

theorem moveLeft_spec (m : Maze) :
    (moveLeft m).grid = m.grid ∧ (moveLeft m).endX = m.endX ∧ (moveLeft m).endY = m.endY ∧
      (PlayerOnOpen m → PlayerOnOpen (moveLeft m)) := by
  unfold moveLeft PlayerOnOpen
  split_ifs with h
  · exact ⟨rfl, rfl, rfl, fun _ => h⟩
  · exact ⟨rfl, rfl, rfl, fun h0 => h0⟩

theorem moveRight_spec (m : Maze) :
    (moveRight m).grid = m.grid ∧ (moveRight m).endX = m.endX ∧ (moveRight m).endY = m.endY ∧
      (PlayerOnOpen m → PlayerOnOpen (moveRight m)) := by
  unfold moveRight PlayerOnOpen
  split_ifs with h
  · exact ⟨rfl, rfl, rfl, fun _ => h⟩
  · exact ⟨rfl, rfl, rfl, fun h0 => h0⟩

theorem applyMoves_spec (keys : Keys) (m : Maze) :
    (applyMoves keys m).grid = m.grid ∧ (applyMoves keys m).endX = m.endX ∧
      (applyMoves keys m).endY = m.endY ∧ (PlayerOnOpen m → PlayerOnOpen (applyMoves keys m)) := by
  unfold applyMoves
  simp only []
  have step : ∀ (b : Bool) (f : Maze → Maze) (m0 : Maze),
      ((f m0).grid = m0.grid ∧ (f m0).endX = m0.endX ∧ (f m0).endY = m0.endY ∧
        (PlayerOnOpen m0 → PlayerOnOpen (f m0))) →
      ((if b = true then f m0 else m0).grid = m0.grid ∧
        (if b = true then f m0 else m0).endX = m0.endX ∧
        (if b = true then f m0 else m0).endY = m0.endY ∧
        (PlayerOnOpen m0 → PlayerOnOpen (if b = true then f m0 else m0))) := by
    intro b f m0 hf
    cases b
    · exact ⟨rfl, rfl, rfl, fun h => h⟩
    · exact hf
  have h1 := step keys.up moveUp m (moveUp_spec m)
  have h2 := step keys.down moveDown _ (moveDown_spec (if keys.up = true then moveUp m else m))
  have h3 := step keys.left moveLeft _ (moveLeft_spec
    (if keys.down = true then moveDown (if keys.up = true then moveUp m else m)
      else (if keys.up = true then moveUp m else m)))
  have h4 := step keys.right moveRight _ (moveRight_spec
    (if keys.left = true then moveLeft
      (if keys.down = true then moveDown (if keys.up = true then moveUp m else m)
        else (if keys.up = true then moveUp m else m))
      else (if keys.down = true then moveDown (if keys.up = true then moveUp m else m)
        else (if keys.up = true then moveUp m else m))))
  refine ⟨?_, ?_, ?_, ?_⟩
  · rw [h4.1, h3.1, h2.1, h1.1]
  · rw [h4.2.1, h3.2.1, h2.2.1, h1.2.1]
  · rw [h4.2.2.1, h3.2.2.1, h2.2.2.1, h1.2.2.1]
  · intro h
    exact h4.2.2.2 (h3.2.2.2 (h2.2.2.2 (h1.2.2.2 h)))

/-! ## One tick -/

theorem tick_goal (inp : TickInput) (s : Game)
    (h : (applyMoves inp.keys s.maze).player.x = (applyMoves inp.keys s.maze).endX ∧
      (applyMoves inp.keys s.maze).player.y = (applyMoves inp.keys s.maze).endY) :
    ∃ m2, Maze.new inp.rnd (s.level + 1) = some m2 ∧
      tick inp s = some { level := s.level + 1, maze := m2, running := runningAfter inp s,
                          startTime := inp.restartTime % 2 ^ 32 } := by
  obtain ⟨m2, hm2, _⟩ := Maze.new_start inp.rnd (s.level + 1)
  refine ⟨m2, hm2, ?_⟩
  unfold tick
  simp only []
  rw [if_pos h, hm2]
  unfold runningAfter
  simp only []

theorem tick_no_goal (inp : TickInput) (s : Game)
    (h : ¬ ((applyMoves inp.keys s.maze).player.x = (applyMoves inp.keys s.maze).endX ∧
      (applyMoves inp.keys s.maze).player.y = (applyMoves inp.keys s.maze).endY)) :
    tick inp s = some { s with maze := applyMoves inp.keys s.maze,
                               running := runningAfter inp s } := by
  unfold tick
  simp only []
  rw [if_neg h]
  unfold runningAfter
  simp only []

/-! ## Walkability, goal placement and the game loop: the properties -/

/-- C10: for every grid and all integers `x`, `y`, `isWalkable` returns a value (the guarded
read never falls outside the vector), and that value is true exactly when
`0 <= x < MAZE_WIDTH`, `0 <= y < MAZE_HEIGHT` and the cell holds 0 (OPEN). The method is a
function of grid and coordinates only, so a repeated call returns the same value. -/
theorem isWalkable_iff_in_grid_and_open (grid : Grid) (x y : Int) :
    ∃ b, isWalkable grid x y = some b ∧
      (b = true ↔
        (0 ≤ x ∧ x < MAZE_WIDTH ∧ 0 ≤ y ∧ y < MAZE_HEIGHT ∧ grid.read x y = some 0)) := by
  refine ⟨_, isWalkable_eq grid x y, ?_⟩
  unfold MAZE_HEIGHT MAZE_WIDTH
  simp only [decide_eq_true_eq]

/-- C6: for every level >= 1 and every outcome of the random draws the constructor returns
a maze whose goal satisfies `2 <= endX, endY <= extent - 2` with
`extent = min (20 + 5 * level) 25`, the extent `generateMaze` uses; the goal therefore
indexes a cell of the 25 x 25 grid. -/
theorem goal_within_extent (level : Int) (rnd : Rand) (h : 1 ≤ level) :
    ∃ m, Maze.new rnd level = some m ∧
      levelExtent level = min (20 + 5 * level) 25 ∧
      2 ≤ m.endX ∧ m.endX ≤ min (20 + 5 * level) 25 - 2 ∧
      2 ≤ m.endY ∧ m.endY ≤ min (20 + 5 * level) 25 - 2 ∧
      (0 ≤ m.endX ∧ m.endX < MAZE_WIDTH ∧ 0 ≤ m.endY ∧ m.endY < MAZE_HEIGHT) := by
  obtain ⟨carved, _, hm⟩ := Maze.new_eq rnd level
  refine ⟨_, hm, ?_⟩
  have hext := levelExtent_of_pos level h
  have hb := placeGoal_bounds level rnd.goalX rnd.goalY h
  rw [hext]
  simp only []
  unfold MAZE_HEIGHT MAZE_WIDTH
  omega

theorem goal_within_extent_witness :
    (1 : Int) ≤ 10 ∧ ∃ m, Maze.new ⟨5, 7, []⟩ 10 = some m ∧
      levelExtent 10 = min (20 + 5 * 10) 25 ∧
      2 ≤ m.endX ∧ m.endX ≤ min (20 + 5 * 10) 25 - 2 ∧
      2 ≤ m.endY ∧ m.endY ≤ min (20 + 5 * 10) 25 - 2 ∧
      (0 ≤ m.endX ∧ m.endX < MAZE_WIDTH ∧ 0 ≤ m.endY ∧ m.endY < MAZE_HEIGHT) :=
  ⟨by decide, goal_within_extent 10 ⟨5, 7, []⟩ (by decide)⟩

/-- C5, as the code has it: for every level >= 1 and every outcome of the random draws the
goal differs from the start `(1, 1)` and lies at least 1 cell beyond it in each axis. It lies
at least 2 cells beyond it in each axis on every level that is not a multiple of 10; on a
multiple of 10 it does so in an axis exactly when the draw for that axis is not the lowest
value 2. -/
theorem goal_separation (level : Int) (rnd : Rand) (h : 1 ≤ level) :
    ∃ m, Maze.new rnd level = some m ∧ m.startX = 1 ∧ m.startY = 1 ∧
      m.endX ≥ m.startX + 1 ∧ m.endY ≥ m.startY + 1 ∧
      (Int.tmod level 10 ≠ 0 → m.endX ≥ m.startX + 2 ∧ m.endY ≥ m.startY + 2) ∧
      (Int.tmod level 10 = 0 →
        (m.endX ≥ m.startX + 2 ↔ dis 2 (levelExtent level - 2) rnd.goalX ≠ 2) ∧
        (m.endY ≥ m.startY + 2 ↔ dis 2 (levelExtent level - 2) rnd.goalY ≠ 2)) := by
  obtain ⟨carved, _, hm⟩ := Maze.new_eq rnd level
  refine ⟨_, hm, rfl, rfl, ?_⟩
  have hext := levelExtent_of_pos level h
  rw [hext]
  simp only []
  by_cases hmod : Int.tmod level 10 = 0
  · rw [placeGoal_random level rnd.goalX rnd.goalY hmod]
    unfold dis
    simp only []
    refine ⟨by omega, by omega, fun hne => absurd hmod hne, fun _ => ⟨?_, ?_⟩⟩ <;> omega
  · rw [placeGoal_fixed level rnd.goalX rnd.goalY h hmod]
    simp only []
    refine ⟨by omega, by omega, fun _ => ⟨by omega, by omega⟩, fun he => absurd he hmod⟩

theorem goal_separation_witness :
    (1 : Int) ≤ 3 ∧ ∃ m, Maze.new ⟨0, 0, []⟩ 3 = some m ∧ m.startX = 1 ∧ m.startY = 1 ∧
      m.endX ≥ m.startX + 1 ∧ m.endY ≥ m.startY + 1 ∧
      (Int.tmod 3 10 ≠ 0 → m.endX ≥ m.startX + 2 ∧ m.endY ≥ m.startY + 2) ∧
      (Int.tmod 3 10 = 0 →
        (m.endX ≥ m.startX + 2 ↔ dis 2 (levelExtent 3 - 2) 0 ≠ 2) ∧
        (m.endY ≥ m.startY + 2 ↔ dis 2 (levelExtent 3 - 2) 0 ≠ 2)) :=
  ⟨by decide, goal_separation 3 ⟨0, 0, []⟩ (by decide)⟩

/-- C5 fails as stated: on level 10, when the draw for x is the lowest value 2, the goal has
`endX = 2 = startX + 1`; the clamp of line 67 only fires for `endX <= startX`. -/
theorem goal_separation_fails_on_level_10 :
    ∃ m, Maze.new ⟨0, 5, []⟩ 10 = some m ∧ m.startX = 1 ∧ m.endX = 2 ∧
      ¬ (m.endX ≥ m.startX + 2 ∧ m.endY ≥ m.startY + 2) := by
  obtain ⟨carved, _, hm⟩ := Maze.new_eq ⟨0, 5, []⟩ 10
  refine ⟨_, hm, rfl, ?_⟩
  have hext := levelExtent_of_pos 10 (by decide)
  rw [hext]
  simp only []
  rw [placeGoal_random 10 0 5 (by decide)]
  simp only []
  omega

theorem tick_preserves_open (inp : TickInput) (s : Game) (h : PlayerOnOpen s.maze) :
    ∃ s1, tick inp s = some s1 ∧ PlayerOnOpen s1.maze := by
  by_cases hg : (applyMoves inp.keys s.maze).player.x = (applyMoves inp.keys s.maze).endX ∧
      (applyMoves inp.keys s.maze).player.y = (applyMoves inp.keys s.maze).endY
  · obtain ⟨m2, hm2, ht⟩ := tick_goal inp s hg
    obtain ⟨m3, hm3, hp, _, _, hopen⟩ := Maze.new_start inp.rnd (s.level + 1)
    rw [hm2] at hm3
    cases hm3
    refine ⟨_, ht, ?_⟩
    unfold PlayerOnOpen
    simp only []
    rw [hp, isWalkable_true_iff]
    exact hopen
  · refine ⟨_, tick_no_goal inp s hg, ?_⟩
    exact (applyMoves_spec inp.keys s.maze).2.2.2 h

theorem gameLoop_preserves_open (inputs : List TickInput) :
    ∀ s : Game, PlayerOnOpen s.maze →
      ∃ s1, gameLoop inputs s = some s1 ∧ PlayerOnOpen s1.maze := by
  induction inputs with
  | nil => intro s h; exact ⟨s, rfl, h⟩
  | cons inp rest ih =>
    intro s h
    unfold gameLoop
    by_cases hr : s.running = true
    · rw [if_pos hr]
      obtain ⟨s1, h1, hopen⟩ := tick_preserves_open inp s h
      rw [h1]
      exact ih s1 hopen
    · rw [if_neg hr]
      exact ⟨s, rfl, h⟩

theorem gameLoop_stopped (inputs : List TickInput) (s : Game) (h : s.running = false) :
    gameLoop inputs s = some s := by
  cases inputs with
  | nil => rfl
  | cons inp rest =>
    unfold gameLoop
    rw [if_neg (by rw [h]; decide)]

theorem tick_isSome (inp : TickInput) (s : Game) :
    ∃ s1, tick inp s = some s1 ∧ s1.running = runningAfter inp s := by
  by_cases hg : (applyMoves inp.keys s.maze).player.x = (applyMoves inp.keys s.maze).endX ∧
      (applyMoves inp.keys s.maze).player.y = (applyMoves inp.keys s.maze).endY
  · obtain ⟨m2, _, ht⟩ := tick_goal inp s hg
    exact ⟨_, ht, rfl⟩
  · exact ⟨_, tick_no_goal inp s hg, rfl⟩

/-- C7, as the code has it: for every game state and every set of pressed keys, a tick whose
elapsed time is strictly greater than `timeLimit` (25000 ms) ends with `running` false; the
loop `while (running)` then runs no further tick, so after that tick the state (player
position and level included) stays as it is whatever the later inputs are. -/
theorem timeout_stops_loop (s : Game) (inp : TickInput)
    (h : u32sub inp.currentTime s.startTime > timeLimit) :
    timeLimit = 25000 ∧
    ∃ s1, tick inp s = some s1 ∧ s1.running = false ∧
      ∀ later : List TickInput, gameLoop later s1 = some s1 := by
  refine ⟨by decide, ?_⟩
  obtain ⟨s1, h1, hr⟩ := tick_isSome inp s
  have hfalse : s1.running = false := by
    rw [hr]
    unfold runningAfter
    rw [if_pos h]
  exact ⟨s1, h1, hfalse, fun later => gameLoop_stopped later s1 hfalse⟩

theorem timeout_stops_loop_witness :
    u32sub 30000 sampleGame.startTime > timeLimit ∧ timeLimit = 25000 ∧
    ∃ s1, tick ⟨false, 30000, ⟨false, false, false, true⟩, ⟨0, 0, []⟩, 30001⟩ sampleGame
        = some s1 ∧ s1.running = false ∧
      ∀ later : List TickInput, gameLoop later s1 = some s1 :=
  ⟨by decide,
    timeout_stops_loop sampleGame ⟨false, 30000, ⟨false, false, false, true⟩, ⟨0, 0, []⟩, 30001⟩
      (by decide)⟩

set_option maxRecDepth 100000 in
/-- C7 fails as stated, in two ways, on the first tick of a game (level 1, maze generated
with `demoPicks`, player on `(1, 1)`, clock started at 0). With elapsed time exactly 25000
(`>= timeLimit`) the tick leaves `running` true, because line 218 tests
`elapsedTime > timeLimit`. With elapsed time 25001 and the right key held, the tick sets
`running` to false and still moves the player from `(1, 1)` to `(2, 1)`, because the moves of
lines 223-234 follow the time check in the same iteration. -/
theorem timeout_transition_fails :
    ∃ m sA sB, Maze.new ⟨0, 0, demoPicks⟩ 1 = some m ∧ m.player = ⟨1, 1⟩ ∧
      u32sub 25000 0 ≥ timeLimit ∧
      tick ⟨false, 25000, ⟨false, false, false, false⟩, ⟨0, 0, []⟩, 25000⟩
        { level := 1, maze := m, running := true, startTime := 0 } = some sA ∧
      sA.running = true ∧
      u32sub 25001 0 ≥ timeLimit ∧
      tick ⟨false, 25001, ⟨false, false, false, true⟩, ⟨0, 0, []⟩, 25001⟩
        { level := 1, maze := m, running := true, startTime := 0 } = some sB ∧
      sB.running = false ∧ sB.maze.player = ⟨2, 1⟩ := by
  refine ⟨_, _, _, Maze.new_demo 1 (by decide) 0 0, rfl, by decide,
    tick_no_goal _ _ ?_, ?_, by decide, tick_no_goal _ _ ?_, ?_, ?_⟩
  · decide!
  · decide!
  · decide!
  · decide!
  · decide!

theorem u32sub_self (t : Nat) : u32sub t (t % 2 ^ 32) = 0 := by
  unfold u32sub
  norm_num
  omega

/-- C9: for every game state, pressed-key set and clock value. If after the moves of the
tick the player position equals the goal, the tick yields `level + 1`, the maze freshly
built by `Maze(level + 1)` with the player on its start `(1, 1)`, and the level clock
restarted at the current time (elapsed time 0). If the positions differ at the goal check,
level, grid and clock start are unchanged. With no direction key pressed the moves leave the
maze as it is, so a player standing on the goal triggers the transition. -/
theorem goal_check_transition (s : Game) (inp : TickInput) :
    (((applyMoves inp.keys s.maze).player.x = (applyMoves inp.keys s.maze).endX ∧
      (applyMoves inp.keys s.maze).player.y = (applyMoves inp.keys s.maze).endY) →
      ∃ m2 s1, Maze.new inp.rnd (s.level + 1) = some m2 ∧ tick inp s = some s1 ∧
        s1.level = s.level + 1 ∧ s1.maze = m2 ∧
        s1.maze.player = ⟨1, 1⟩ ∧ s1.maze.startX = 1 ∧ s1.maze.startY = 1 ∧
        s1.startTime = inp.restartTime % 2 ^ 32 ∧ u32sub inp.restartTime s1.startTime = 0) ∧
    (¬ ((applyMoves inp.keys s.maze).player.x = (applyMoves inp.keys s.maze).endX ∧
      (applyMoves inp.keys s.maze).player.y = (applyMoves inp.keys s.maze).endY) →
      ∃ s1, tick inp s = some s1 ∧ s1.level = s.level ∧ s1.maze.grid = s.maze.grid ∧
        s1.startTime = s.startTime) ∧
    (inp.keys = ⟨false, false, false, false⟩ → applyMoves inp.keys s.maze = s.maze) := by
  refine ⟨?_, ?_, ?_⟩
  · intro hg
    obtain ⟨m2, hm2, ht⟩ := tick_goal inp s hg
    obtain ⟨m3, hm3, hp, hsx, hsy, _⟩ := Maze.new_start inp.rnd (s.level + 1)
    rw [hm2] at hm3
    cases hm3
    exact ⟨m2, _, hm2, ht, rfl, rfl, hp, hsx, hsy, rfl, u32sub_self inp.restartTime⟩
  · intro hg
    exact ⟨_, tick_no_goal inp s hg, rfl, (applyMoves_spec inp.keys s.maze).1, rfl⟩
  · intro hk
    rw [hk]
    rfl

/-- C8: whatever the random outcomes, clock values and pressed keys of any sequence of
ticks (level transitions included), the run from the initial state `Maze(1)` is defined and
in the state it reaches the player stands on an OPEN cell inside the grid:
`isWalkable(player.x, player.y)` is true. -/
theorem player_always_on_open_cell (rnd : Rand) (startTime : Nat) (inputs : List TickInput) :
    ∃ s, runGame rnd startTime inputs = some s ∧
      isWalkable s.maze.grid s.maze.player.x s.maze.player.y = some true := by
  obtain ⟨m, hm, hp, _, _, hopen⟩ := Maze.new_start rnd 1
  unfold runGame
  rw [hm]
  simp only []
  apply gameLoop_preserves_open
  unfold PlayerOnOpen
  simp only []
  rw [hp, isWalkable_true_iff]
  exact hopen

/-! ## Paths of OPEN cells -/

theorem OpenPath.mono {g g2 : Grid} (h : ∀ a b, g.read a b = some 0 → g2.read a b = some 0)
    {p q : Int × Int} (hp : OpenPath g p q) : OpenPath g2 p q := by
  induction hp with
  | start hopen => exact OpenPath.start p (h _ _ hopen)
  | step q r _ hadj hopen ih => exact OpenPath.step p q r ih hadj (h _ _ hopen)

theorem OpenPath.target_open {g : Grid} {p q : Int × Int} (hp : OpenPath g p q) :
    g.read q.1 q.2 = some 0 := by
  cases hp <;> assumption

theorem directions_cases (dir : Int × Int) (h : dir ∈ directions) :
    (dir.1 = 1 ∧ dir.2 = 0) ∨ (dir.1 = -1 ∧ dir.2 = 0) ∨ (dir.1 = 0 ∧ dir.2 = 1)
      ∨ (dir.1 = 0 ∧ dir.2 = -1) := by
  rcases (mem_directions dir).mp h with h | h | h | h <;> rw [h] <;> simp

/-- Reads of the grid after the two stores of a carve (lines 97-98). -/
theorem read_carved (g : Grid) (mx my tx ty a b : Int)
    (hm : 0 ≤ mx ∧ mx < 25 ∧ 0 ≤ my ∧ my < 25) (ht : 0 ≤ tx ∧ tx < 25 ∧ 0 ≤ ty ∧ ty < 25) :
    ((g.write mx my 0).write tx ty 0).read a b =
      if (a = tx ∧ b = ty) ∨ (a = mx ∧ b = my) then some 0 else g.read a b := by
  rw [Grid.read_write, Grid.read_write]
  by_cases h1 : a = tx ∧ b = ty
  · rw [if_pos ⟨ht, h1⟩, if_pos (Or.inl h1)]
  · rw [if_neg (fun h => h1 h.2)]
    by_cases h2 : a = mx ∧ b = my
    · rw [if_pos ⟨hm, h2⟩, if_pos (Or.inr h2)]
    · rw [if_neg (fun h => h2 h.2), if_neg (by tauto)]

/-- What a valid direction gives, for a popped cell that is OPEN: the target is a WALL cell
strictly inside the extent, and target and the cell in between are cells of the grid. -/
theorem valid_direction_facts (g : Grid) (maze_size x y : Int) (dir : Int × Int)
    (h : dir ∈ validDirections g maze_size x y) (hsrc : g.read x y = some 0) :
    ((dir.1 = 1 ∧ dir.2 = 0) ∨ (dir.1 = -1 ∧ dir.2 = 0) ∨ (dir.1 = 0 ∧ dir.2 = 1)
      ∨ (dir.1 = 0 ∧ dir.2 = -1)) ∧
    (0 < x + dir.1 * 2 ∧ 0 < y + dir.2 * 2 ∧ x + dir.1 * 2 < maze_size - 1
      ∧ y + dir.2 * 2 < maze_size - 1) ∧
    g.read (x + dir.1 * 2) (y + dir.2 * 2) = some 1 ∧
    (0 ≤ x + dir.1 * 2 ∧ x + dir.1 * 2 < 25 ∧ 0 ≤ y + dir.2 * 2 ∧ y + dir.2 * 2 < 25) ∧
    (0 ≤ x + dir.1 ∧ x + dir.1 < 25 ∧ 0 ≤ y + dir.2 ∧ y + dir.2 < 25) := by
  rw [mem_validDirections] at h
  obtain ⟨hd, h1, h2, h3, h4, hw⟩ := h
  have hc := directions_cases dir hd
  have hb : 0 ≤ x + dir.1 * 2 ∧ x + dir.1 * 2 < 25 ∧ 0 ≤ y + dir.2 * 2 ∧ y + dir.2 * 2 < 25 := by
    rw [← Grid.read_eq_some_iff_bounds g, hw]; rfl
  have hs : 0 ≤ x ∧ x < 25 ∧ 0 ≤ y ∧ y < 25 := by
    rw [← Grid.read_eq_some_iff_bounds g, hsrc]; rfl
  refine ⟨hc, ⟨h1, h2, h3, h4⟩, hw, hb, ?_⟩
  omega

/-! ## The invariant of the carving loop -/

theorem CarveInv.init (maze_size : Int) (g : Grid)
    (hwall : ∀ x y, 0 ≤ x → x < maze_size → 0 ≤ y → y < maze_size → g.read x y = some 1) :
    CarveInv maze_size (g.write 1 1 0) [(1, 1)] := by
  have hread : ∀ a b, (g.write 1 1 0).read a b = if a = 1 ∧ b = 1 then some 0 else g.read a b := by
    intro a b
    rw [Grid.read_write]
    by_cases h : a = 1 ∧ b = 1
    · rw [if_pos h, if_pos ⟨by omega, h⟩]
    · rw [if_neg h, if_neg (fun hh => h hh.2)]
  have hstart : OpenPath (g.write 1 1 0) (1, 1) (1, 1) :=
    OpenPath.start (1, 1) (by rw [hread]; simp)
  have honly : ∀ x y, 0 ≤ x → x < maze_size → 0 ≤ y → y < maze_size →
      (g.write 1 1 0).read x y = some 0 → x = 1 ∧ y = 1 := by
    intro x y h1 h2 h3 h4 ho
    rw [hread] at ho
    by_contra hne
    rw [if_neg hne, hwall x y h1 h2 h3 h4] at ho
    simp at ho
  constructor
  · intro c hc
    rw [List.mem_singleton] at hc
    subst hc
    exact ⟨by decide, by decide, hstart⟩
  · intro x y h1 h2 h3 h4 ho
    obtain ⟨rfl, rfl⟩ := honly x y h1 h2 h3 h4 ho
    exact hstart
  · intro x y h1 h2 h3 h4
    rw [hread]
    split_ifs
    · exact Or.inl rfl
    · exact Or.inr (hwall x y h1 h2 h3 h4)
  · intro x y dir h1 h2 h3 h4 _ _ ho _
    obtain ⟨rfl, rfl⟩ := honly x y h1 h2 h3 h4 ho
    exact List.mem_singleton.mpr rfl
  · intro x y h1 h2 h3 h4 ho
    obtain ⟨rfl, rfl⟩ := honly x y h1 h2 h3 h4 ho
    refine ⟨fun h => ?_, fun _ h => ?_, fun h => ?_⟩
    · omega
    · omega
    · omega

theorem CarveInv.pop {maze_size : Int} {g : Grid} {x y : Int} {rest : List (Int × Int)}
    (h : CarveInv maze_size g ((x, y) :: rest)) (hv : validDirections g maze_size x y = []) :
    CarveInv maze_size g rest := by
  constructor
  · intro c hc
    exact h.stack_ok c (List.mem_cons_of_mem _ hc)
  · exact h.connected
  · exact h.binary
  · intro a b dir h1 h2 h3 h4 ha hb ho hd
    rcases List.mem_cons.mp (h.frontier a b dir h1 h2 h3 h4 ha hb ho hd) with heq | hin
    · simp only [Prod.mk.injEq] at heq
      obtain ⟨rfl, rfl⟩ := heq
      rw [hv] at hd
      cases hd
    · exact hin
  · exact h.flanked

/-- Arithmetic of one carve from a cell with odd coordinates. -/
theorem direction_arith (x y d1 d2 : Int) (hx : x % 2 = 1) (hy : y % 2 = 1)
    (hc : (d1 = 1 ∧ d2 = 0) ∨ (d1 = -1 ∧ d2 = 0) ∨ (d1 = 0 ∧ d2 = 1) ∨ (d1 = 0 ∧ d2 = -1)) :
    ((x + d1 * 2) % 2 = 1 ∧ (y + d2 * 2) % 2 = 1) ∧
    ¬ ((x + d1) % 2 = 1 ∧ (y + d2) % 2 = 1) ∧
    ¬ ((x + d1) % 2 = 0 ∧ (y + d2) % 2 = 0) ∧
    ((x + d1) % 2 = 0 →
      ((x + d1 - 1 = x ∧ x + d1 + 1 = x + d1 * 2) ∨ (x + d1 + 1 = x ∧ x + d1 - 1 = x + d1 * 2))
        ∧ y + d2 = y ∧ y = y + d2 * 2) ∧
    ((y + d2) % 2 = 0 →
      ((y + d2 - 1 = y ∧ y + d2 + 1 = y + d2 * 2) ∨ (y + d2 + 1 = y ∧ y + d2 - 1 = y + d2 * 2))
        ∧ x + d1 = x ∧ x = x + d1 * 2) ∧
    Adjacent (x, y) (x + d1, y + d2) ∧ Adjacent (x + d1, y + d2) (x + d1 * 2, y + d2 * 2) ∧
    (((x + d1) % 2 = 0 ∧ (y + d2) % 2 = 1) ∨ ((x + d1) % 2 = 1 ∧ (y + d2) % 2 = 0)) ∧
    ¬ (x + d1 * 2 = x + d1 ∧ y + d2 * 2 = y + d2) := by
  unfold Adjacent
  simp only []
  rcases hc with ⟨rfl, rfl⟩ | ⟨rfl, rfl⟩ | ⟨rfl, rfl⟩ | ⟨rfl, rfl⟩ <;>
    refine ⟨⟨?_, ?_⟩, ?_, ?_, ?_, ?_, ?_, ?_, ?_, ?_⟩ <;> omega

/-- Preservation by a carve, the new grid being given by its reads. -/
theorem CarveInv.carve_reads {maze_size : Int} {g g2 : Grid} {x y : Int}
    {rest : List (Int × Int)} {dir : Int × Int} (h : CarveInv maze_size g ((x, y) :: rest))
    (hd : dir ∈ validDirections g maze_size x y)
    (hread : ∀ a b, g2.read a b =
      if (a = x + dir.1 * 2 ∧ b = y + dir.2 * 2) ∨ (a = x + dir.1 ∧ b = y + dir.2) then some 0
      else g.read a b) :
    CarveInv maze_size g2 ((x + dir.1 * 2, y + dir.2 * 2) :: (x, y) :: rest) := by
  obtain ⟨hxo, hyo, hpath⟩ := h.stack_ok (x, y) (List.mem_cons_self _ _)
  simp only [] at hxo hyo
  have hsrc : g.read x y = some 0 := hpath.target_open
  obtain ⟨hc, -, -, -, -⟩ := valid_direction_facts g maze_size x y dir hd hsrc
  obtain ⟨htodd, hmodd, hmeven, hflx, hfly, hadj1, hadj2, -, -⟩ :=
    direction_arith x y dir.1 dir.2 hxo hyo hc
  clear hc
  have hmono : ∀ a b, g.read a b = some 0 → g2.read a b = some 0 := by
    intro a b ho
    rw [hread]
    split_ifs
    · rfl
    · exact ho
  have hsrc2 := hmono x y hsrc
  have hmid_open : g2.read (x + dir.1) (y + dir.2) = some 0 := by
    rw [hread, if_pos (Or.inr ⟨rfl, rfl⟩)]
  have htgt_open : g2.read (x + dir.1 * 2) (y + dir.2 * 2) = some 0 := by
    rw [hread, if_pos (Or.inl ⟨rfl, rfl⟩)]
  have hpath_mid : OpenPath g2 (1, 1) (x + dir.1, y + dir.2) :=
    OpenPath.step _ _ _ (hpath.mono hmono) hadj1 hmid_open
  have hpath_tgt : OpenPath g2 (1, 1) (x + dir.1 * 2, y + dir.2 * 2) :=
    OpenPath.step _ _ _ hpath_mid hadj2 htgt_open
  constructor
  · intro c hcm
    rcases List.mem_cons.mp hcm with heq | hin
    · subst heq
      exact ⟨htodd.1, htodd.2, hpath_tgt⟩
    · obtain ⟨h1, h2, hp⟩ := h.stack_ok c hin
      exact ⟨h1, h2, hp.mono hmono⟩
  · intro a b h1 h2 h3 h4 ho
    rw [hread] at ho
    by_cases ht : a = x + dir.1 * 2 ∧ b = y + dir.2 * 2
    · obtain ⟨rfl, rfl⟩ := ht
      exact hpath_tgt
    · by_cases hm : a = x + dir.1 ∧ b = y + dir.2
      · obtain ⟨rfl, rfl⟩ := hm
        exact hpath_mid
      · rw [if_neg (not_or.mpr ⟨ht, hm⟩)] at ho
        exact (h.connected a b h1 h2 h3 h4 ho).mono hmono
  · intro a b h1 h2 h3 h4
    rw [hread]
    split_ifs
    · exact Or.inl rfl
    · exact h.binary a b h1 h2 h3 h4
  · intro a b d h1 h2 h3 h4 hao hbo ho hdv
    by_cases ht : a = x + dir.1 * 2 ∧ b = y + dir.2 * 2
    · obtain ⟨rfl, rfl⟩ := ht
      exact List.mem_cons_self _ _
    · by_cases hm : a = x + dir.1 ∧ b = y + dir.2
      · obtain ⟨rfl, rfl⟩ := hm
        exact absurd ⟨hao, hbo⟩ hmodd
      · rw [hread, if_neg (not_or.mpr ⟨ht, hm⟩)] at ho
        apply List.mem_cons_of_mem
        apply h.frontier a b d h1 h2 h3 h4 hao hbo ho
        rw [mem_validDirections] at hdv ⊢
        obtain ⟨q1, q2, q3, q4, q5, q6⟩ := hdv
        refine ⟨q1, q2, q3, q4, q5, ?_⟩
        rw [hread] at q6
        split_ifs at q6 with hq
        · simp at q6
        · exact q6
  · intro a b h1 h2 h3 h4 ho
    by_cases ht : a = x + dir.1 * 2 ∧ b = y + dir.2 * 2
    · obtain ⟨rfl, rfl⟩ := ht
      refine ⟨fun he _ => ?_, fun _ he => ?_, fun he => ?_⟩
      · exfalso; rw [htodd.1] at he; exact absurd he (by decide)
      · exfalso; rw [htodd.2] at he; exact absurd he (by decide)
      · rw [htodd.1] at he; exact absurd he.1 (by decide)
    · by_cases hm : a = x + dir.1 ∧ b = y + dir.2
      · obtain ⟨rfl, rfl⟩ := hm
        refine ⟨fun he _ => ?_, fun _ he => ?_, hmeven⟩
        · obtain ⟨e12, e3, e4⟩ := hflx he
          rcases e12 with ⟨e1, e2⟩ | ⟨e1, e2⟩
          · constructor
            · rw [e1, e3]; exact hsrc2
            · rw [e2, e3, e4]; exact htgt_open
          · constructor
            · rw [e2, e3, e4]; exact htgt_open
            · rw [e1, e3]; exact hsrc2
        · obtain ⟨e12, e3, e4⟩ := hfly he
          rcases e12 with ⟨e1, e2⟩ | ⟨e1, e2⟩
          · constructor
            · rw [e1, e3]; exact hsrc2
            · rw [e2, e3, e4]; exact htgt_open
          · constructor
            · rw [e2, e3, e4]; exact htgt_open
            · rw [e1, e3]; exact hsrc2
      · rw [hread, if_neg (not_or.mpr ⟨ht, hm⟩)] at ho
        obtain ⟨f1, f2, f3⟩ := h.flanked a b h1 h2 h3 h4 ho
        refine ⟨fun he ho2 => ?_, fun he ho2 => ?_, f3⟩
        · exact ⟨hmono _ _ (f1 he ho2).1, hmono _ _ (f1 he ho2).2⟩
        · exact ⟨hmono _ _ (f2 he ho2).1, hmono _ _ (f2 he ho2).2⟩

theorem CarveInv.carve {maze_size : Int} {g : Grid} {x y : Int} {rest : List (Int × Int)}
    {dir : Int × Int} (h : CarveInv maze_size g ((x, y) :: rest))
    (hd : dir ∈ validDirections g maze_size x y) :
    CarveInv maze_size
      ((g.write (x + dir.1) (y + dir.2) 0).write (x + dir.1 * 2) (y + dir.2 * 2) 0)
      ((x + dir.1 * 2, y + dir.2 * 2) :: (x, y) :: rest) := by
  obtain ⟨_, _, hpath⟩ := h.stack_ok (x, y) (List.mem_cons_self _ _)
  obtain ⟨_, _, _, hbt, hbm⟩ :=
    valid_direction_facts g maze_size x y dir hd hpath.target_open
  exact h.carve_reads hd (fun a b => read_carved g _ _ _ _ a b hbm hbt)

theorem carve_inv (fuel : Nat) (maze_size : Int) (g : Grid) (picks : List Nat) (out : Grid)
    (hwall : ∀ x y, 0 ≤ x → x < maze_size → 0 ≤ y → y < maze_size → g.read x y = some 1)
    (h : carve fuel maze_size g 1 1 picks = some out) : CarveInv maze_size out [] := by
  unfold carve at h
  exact carveLoop_invariant maze_size (CarveInv maze_size)
    (fun _ _ _ _ hP hv => hP.pop hv) (fun _ _ _ _ _ hP hd => hP.carve hd) fuel _ out
    (CarveInv.init maze_size g hwall) h

/-- With the stack empty, an OPEN room strictly inside the extent has every lattice
neighbour that lies strictly inside the extent OPEN as well. -/
theorem CarveInv.neighbor_open {maze_size : Int} {g : Grid} (h : CarveInv maze_size g [])
    (x y : Int) (dir : Int × Int) (hd : dir ∈ directions) (hx : x % 2 = 1) (hy : y % 2 = 1)
    (hx0 : 0 < x) (hx1 : x < maze_size - 1) (hy0 : 0 < y) (hy1 : y < maze_size - 1)
    (ho : g.read x y = some 0)
    (ht : 0 < x + dir.1 * 2 ∧ 0 < y + dir.2 * 2 ∧ x + dir.1 * 2 < maze_size - 1
      ∧ y + dir.2 * 2 < maze_size - 1) :
    g.read (x + dir.1 * 2) (y + dir.2 * 2) = some 0 := by
  rcases h.binary (x + dir.1 * 2) (y + dir.2 * 2) (by omega) (by omega) (by omega) (by omega)
    with hopen | hwall
  · exact hopen
  · exfalso
    have hv : dir ∈ validDirections g maze_size x y := by
      rw [mem_validDirections]
      exact ⟨hd, ht.1, ht.2.1, ht.2.2.1, ht.2.2.2, hwall⟩
    have hmem := h.frontier x y dir (by omega) (by omega) (by omega) (by omega) hx hy ho hv
    cases hmem

theorem CarveInv.rooms_open {maze_size : Int} {g : Grid} (h : CarveInv maze_size g [])
    (hstart : g.read 1 1 = some 0) :
    ∀ i j : Nat, (2 * (i : Int) + 1 < maze_size - 1) → (2 * (j : Int) + 1 < maze_size - 1) →
      g.read (2 * (i : Int) + 1) (2 * (j : Int) + 1) = some 0 := by
  have hcol : ∀ i : Nat, (2 * (i : Int) + 1 < maze_size - 1) → (1 : Int) < maze_size - 1 →
      g.read (2 * (i : Int) + 1) 1 = some 0 := by
    intro i
    induction i with
    | zero => intro _ _; exact hstart
    | succ i ih =>
      intro hi h1
      have hprev := ih (by push_cast at hi ⊢; omega) h1
      have hn := h.neighbor_open (2 * (i : Int) + 1) 1 (1, 0) (by simp [directions])
        (by omega) (by decide) (by omega) (by push_cast at hi; omega) (by decide) h1 hprev
        (by simp only []; push_cast at hi; omega)
      simp only [] at hn
      have e1 : 2 * (i : Int) + 1 + 1 * 2 = 2 * ((i + 1 : Nat) : Int) + 1 := by
        push_cast; ring
      have e2 : (1 : Int) + 0 * 2 = 1 := by norm_num
      rw [e1, e2] at hn
      exact hn
  intro i j
  induction j with
  | zero =>
    intro hi hj
    exact hcol i hi (by simpa using hj)
  | succ j ih =>
    intro hi hj
    have hprev := ih hi (by push_cast at hj ⊢; omega)
    have hn := h.neighbor_open (2 * (i : Int) + 1) (2 * (j : Int) + 1) (0, 1)
      (by simp [directions]) (by omega) (by omega) (by omega) hi (by omega)
      (by push_cast at hj; omega) hprev (by simp only []; push_cast at hj; omega)
    simp only [] at hn
    have e1 : 2 * (j : Int) + 1 + 1 * 2 = 2 * ((j + 1 : Nat) : Int) + 1 := by
      push_cast; ring
    have e2 : 2 * (i : Int) + 1 + 0 * 2 = 2 * (i : Int) + 1 := by norm_num
    rw [e1, e2] at hn
    exact hn

/-- Every room strictly inside the extent is OPEN once the stack is empty. -/
theorem CarveInv.room_open {maze_size : Int} {g : Grid} (h : CarveInv maze_size g [])
    (hstart : g.read 1 1 = some 0) (x y : Int) (hx : x % 2 = 1) (hy : y % 2 = 1)
    (hx0 : 0 < x) (hx1 : x < maze_size - 1) (hy0 : 0 < y) (hy1 : y < maze_size - 1) :
    g.read x y = some 0 := by
  have hi : x = 2 * (((x / 2).toNat : Nat) : Int) + 1 := by omega
  have hj : y = 2 * (((y / 2).toNat : Nat) : Int) + 1 := by omega
  have hr := h.rooms_open hstart (x / 2).toNat (y / 2).toNat (by omega) (by omega)
  rw [← hi, ← hj] at hr
  exact hr

/-! ## The carving loop: the properties -/

/-- C3: for every `maze_size` (capped by the two `std::min` of lines 40-41), every grid that
is all WALL over the extent on entry and every sequence of raw picks, the carving loop ends
and every lattice room has been visited: every cell `(x, y)` with `x`, `y` odd and
`0 < x, y < extent - 1` is OPEN and joined to the start `(1, 1)` by a path of OPEN cells. -/
theorem carve_visits_every_room (maze_size : Int) (g : Grid) (picks : List Nat)
    (hwall : ∀ x y, 0 ≤ x → x < min (min maze_size MAZE_WIDTH) MAZE_HEIGHT →
      0 ≤ y → y < min (min maze_size MAZE_WIDTH) MAZE_HEIGHT → g.read x y = some 1) :
    ∃ out, carve carveFuel (min (min maze_size MAZE_WIDTH) MAZE_HEIGHT) g 1 1 picks = some out ∧
      ∀ x y, x % 2 = 1 → y % 2 = 1 →
        0 < x → x < min (min maze_size MAZE_WIDTH) MAZE_HEIGHT - 1 →
        0 < y → y < min (min maze_size MAZE_WIDTH) MAZE_HEIGHT - 1 →
        out.read x y = some 0 ∧ OpenPath out (1, 1) (x, y) := by
  obtain ⟨out, hout⟩ := carve_isSome (min (min maze_size MAZE_WIDTH) MAZE_HEIGHT) g 1 1 picks
  refine ⟨out, hout, ?_⟩
  have hinv := carve_inv _ _ _ _ _ hwall hout
  have hstart := carve_start_open _ _ _ _ _ hout
  intro x y hx hy hx0 hx1 hy0 hy1
  have hopen := hinv.room_open hstart x y hx hy hx0 hx1 hy0 hy1
  exact ⟨hopen, hinv.connected x y (by omega) (by omega) (by omega) (by omega) hopen⟩

theorem carve_visits_every_room_witness :
    (∀ x y : Int, 0 ≤ x → x < min (min 30 MAZE_WIDTH) MAZE_HEIGHT →
      0 ≤ y → y < min (min 30 MAZE_WIDTH) MAZE_HEIGHT → Grid.allWall.read x y = some 1) ∧
    ∃ out, carve carveFuel (min (min 30 MAZE_WIDTH) MAZE_HEIGHT) Grid.allWall 1 1 [2, 1]
        = some out ∧
      ∀ x y, x % 2 = 1 → y % 2 = 1 →
        0 < x → x < min (min 30 MAZE_WIDTH) MAZE_HEIGHT - 1 →
        0 < y → y < min (min 30 MAZE_WIDTH) MAZE_HEIGHT - 1 →
        out.read x y = some 0 ∧ OpenPath out (1, 1) (x, y) :=
  have hw : ∀ x y : Int, 0 ≤ x → x < min (min 30 MAZE_WIDTH) MAZE_HEIGHT →
      0 ≤ y → y < min (min 30 MAZE_WIDTH) MAZE_HEIGHT → Grid.allWall.read x y = some 1 := by
    intro x y h1 h2 h3 h4
    unfold MAZE_HEIGHT MAZE_WIDTH at h2 h4
    exact Grid.allWall_read x y (by omega)
  ⟨hw, carve_visits_every_room 30 Grid.allWall [2, 1] hw⟩

/-- C4: for every initial grid content, every `maze_size` and every sequence of raw picks the
carving loop terminates. Each iteration either removes the popped cell from the stack and
leaves the grid as it is, or opens a cell that held WALL, which strictly decreases the number
of WALL cells strictly inside the extent, and pushes it; hence the loop started on the stack
holding only the start empties the stack within `2 * wallCount + 1` iterations (and within
any larger number). -/
theorem carve_loop_terminates (grid : Grid) (maze_size : Int) (picks : List Nat) :
    (∀ (g : Grid) (x y : Int) (rest : List (Int × Int)) (pk : List Nat),
      (carveStep maze_size g x y rest pk).grid = g ∧
        (carveStep maze_size g x y rest pk).stack = rest
      ∨ ∃ nx ny, g.read nx ny = some 1 ∧
        (carveStep maze_size g x y rest pk).grid.read nx ny = some 0 ∧
        (carveStep maze_size g x y rest pk).stack = (nx, ny) :: (x, y) :: rest ∧
        wallCount (carveStep maze_size g x y rest pk).grid maze_size < wallCount g maze_size) ∧
    (∀ fuel, 2 * wallCount (grid.write 1 1 0) maze_size + 1 ≤ fuel →
      ∃ out, carve fuel maze_size grid 1 1 picks = some out) := by
  constructor
  · intro g x y rest pk
    by_cases hv : validDirections g maze_size x y = []
    · left
      rw [carveStep_pop _ _ _ _ _ _ hv]
      exact ⟨rfl, rfl⟩
    · right
      obtain ⟨dir, hdir, hstep⟩ := carveStep_carve maze_size g x y rest pk hv
      rw [hstep]
      have hlt := wallCount_carve maze_size g x y dir hdir
      rw [mem_validDirections] at hdir
      obtain ⟨_, _, _, _, _, hw⟩ := hdir
      have hb : 0 ≤ x + dir.1 * 2 ∧ x + dir.1 * 2 < 25 ∧ 0 ≤ y + dir.2 * 2
          ∧ y + dir.2 * 2 < 25 := by
        rw [← Grid.read_eq_some_iff_bounds g, hw]; rfl
      refine ⟨x + dir.1 * 2, y + dir.2 * 2, hw, ?_, rfl, hlt⟩
      simp only []
      rw [Grid.read_write, if_pos ⟨hb, rfl, rfl⟩]
  · intro fuel hfuel
    unfold carve
    apply carveLoop_terminates
    simp only [List.length_cons, List.length_nil]
    omega

/-! ## The reset of lines 43-47 -/

theorem resetColumn_read (g : Grid) (x : Int) (hx : 0 ≤ x ∧ x < 25) :
    ∀ n : Nat, n ≤ 25 →
      (∀ b : Int, 0 ≤ b → b < n →
        ((List.range n).foldl (fun g1 (y : Nat) => g1.write x y 1) g).read x b = some 1) ∧
      (∀ a b : Int, g.read a b = some 1 →
        ((List.range n).foldl (fun g1 (y : Nat) => g1.write x y 1) g).read a b = some 1) := by
  intro n
  induction n with
  | zero =>
    intro _
    refine ⟨fun b h0 h1 => ?_, fun a b h => h⟩
    exfalso
    simp at h1
    omega
  | succ n ih =>
    intro hn
    obtain ⟨ih1, ih2⟩ := ih (by omega)
    rw [List.range_succ, List.foldl_append]
    simp only [List.foldl_cons, List.foldl_nil]
    constructor
    · intro b h0 h1
      rw [Grid.read_write]
      by_cases hb : b = (n : Int)
      · rw [if_pos ⟨⟨hx.1, hx.2, by omega, by omega⟩, rfl, hb⟩]
      · rw [if_neg (fun h => hb h.2.2)]
        exact ih1 b h0 (by push_cast at h1; omega)
    · intro a b h
      rw [Grid.read_write]
      split_ifs
      · rfl
      · exact ih2 a b h

theorem resetRows_read (g : Grid) (m : Nat) (hm : m ≤ 25) :
    ∀ n : Nat, n ≤ 25 →
      (∀ a b : Int, 0 ≤ a → a < n → 0 ≤ b → b < m →
        ((List.range n).foldl
          (fun g0 (x : Nat) => (List.range m).foldl (fun g1 (y : Nat) => g1.write x y 1) g0)
          g).read a b = some 1) ∧
      (∀ a b : Int, g.read a b = some 1 →
        ((List.range n).foldl
          (fun g0 (x : Nat) => (List.range m).foldl (fun g1 (y : Nat) => g1.write x y 1) g0)
          g).read a b = some 1) := by
  intro n
  induction n with
  | zero =>
    intro _
    refine ⟨fun a b h0 h1 => ?_, fun a b h => h⟩
    exfalso
    simp at h1
    omega
  | succ n ih =>
    intro hn
    obtain ⟨ih1, ih2⟩ := ih (by omega)
    rw [List.range_succ, List.foldl_append]
    simp only [List.foldl_cons, List.foldl_nil]
    have hcol := resetColumn_read
      ((List.range n).foldl
        (fun g0 (x : Nat) => (List.range m).foldl (fun g1 (y : Nat) => g1.write x y 1) g0) g)
      (n : Int) ⟨by omega, by omega⟩ m hm
    constructor
    · intro a b ha0 ha1 hb0 hb1
      by_cases ha : a = (n : Int)
      · rw [ha]
        exact hcol.1 b hb0 hb1
      · exact hcol.2 a b (ih1 a b ha0 (by push_cast at ha1; omega) hb0 hb1)
    · intro a b h
      exact hcol.2 a b (ih2 a b h)

/-- After the reset every cell of the extent holds 1 (WALL). -/
theorem resetGrid_read (g : Grid) (maze_size : Int) (hms : maze_size ≤ 25) (x y : Int)
    (hx0 : 0 ≤ x) (hx1 : x < maze_size) (hy0 : 0 ≤ y) (hy1 : y < maze_size) :
    (resetGrid g maze_size).read x y = some 1 := by
  unfold resetGrid
  exact (resetRows_read g maze_size.toNat (by omega) maze_size.toNat (by omega)).1 x y hx0
    (by omega) hy0 (by omega)

/-! ## Counting rooms and edges -/

theorem allCells_nodup : allCells.Nodup := by
  unfold allCells
  apply List.Nodup.map
  · intro p q hpq
    simp only [Prod.mk.injEq, Nat.cast_inj] at hpq
    exact Prod.ext hpq.1 hpq.2
  · exact List.Nodup.product (List.nodup_range 25) (List.nodup_range 25)

theorem countP_flip {α : Type} (p q : α → Bool) (l : List α) (a : α) (hnd : l.Nodup)
    (ha : a ∈ l) (hpa : p a = false) (hqa : q a = true)
    (hother : ∀ c ∈ l, c ≠ a → q c = p c) : l.countP q = l.countP p + 1 := by
  induction l with
  | nil => cases ha
  | cons b l ih =>
    obtain ⟨hbl, hl⟩ := List.nodup_cons.mp hnd
    rcases List.mem_cons.mp ha with hab | hal
    · subst hab
      have hrest : l.countP q = l.countP p := by
        apply List.countP_congr
        intro c hc
        have hne : c ≠ a := fun h => hbl (h ▸ hc)
        rw [hother c (List.mem_cons_of_mem _ hc) hne]
      rw [List.countP_cons_of_pos _ _ hqa, List.countP_cons_of_neg _ _ (by simp [hpa]), hrest]
    · have hne : b ≠ a := fun h => hbl (h ▸ hal)
      have hqb := hother b (List.mem_cons_self _ _) hne
      have hrec := ih hl hal (fun c hc hca => hother c (List.mem_cons_of_mem _ hc) hca)
      by_cases hpb : p b = true
      · rw [List.countP_cons_of_pos _ _ hpb, List.countP_cons_of_pos _ _ (by rw [hqb]; exact hpb),
          hrec]
      · rw [List.countP_cons_of_neg _ _ hpb, List.countP_cons_of_neg _ _ (by rw [hqb]; exact hpb),
          hrec]

/-- Opening a cell that was not OPEN adds one to the count of its kind and nothing to the
count of any other kind. -/
theorem openCount_write_closed (kind : Int × Int → Bool) (g : Grid) (a b : Int)
    (hb : 0 ≤ a ∧ a < 25 ∧ 0 ≤ b ∧ b < 25) (hc : g.read a b ≠ some 0) :
    openCount kind (g.write a b 0) = openCount kind g + (if kind (a, b) = true then 1 else 0) := by
  unfold openCount
  have hread : ∀ c : Int × Int, c ≠ (a, b) → (g.write a b 0).read c.1 c.2 = g.read c.1 c.2 := by
    intro c hne
    rw [Grid.read_write, if_neg]
    intro h
    exact hne (Prod.ext h.2.1 h.2.2)
  have hnew : (g.write a b 0).read a b = some 0 := by
    rw [Grid.read_write, if_pos ⟨hb, rfl, rfl⟩]
  by_cases hk : kind (a, b) = true
  · rw [if_pos hk]
    apply countP_flip _ _ allCells (a, b) allCells_nodup ((mem_allCells _).mpr hb)
    · simp only [Bool.and_eq_false_imp, decide_eq_false_iff_not]
      intro _; exact hc
    · simp only [Bool.and_eq_true, decide_eq_true_eq]
      exact ⟨hk, hnew⟩
    · intro c _ hne
      rw [hread c hne]
  · rw [if_neg hk, Nat.add_zero]
    apply List.countP_congr
    intro c _
    by_cases hca : c = (a, b)
    · subst hca
      simp [hk]
    · rw [hread c hca]

theorem openCount_write_open (kind : Int × Int → Bool) (g : Grid) (a b : Int)
    (ho : g.read a b = some 0) : openCount kind (g.write a b 0) = openCount kind g := by
  unfold openCount
  apply List.countP_congr
  intro c _
  have : (g.write a b 0).read c.1 c.2 = g.read c.1 c.2 := by
    rw [Grid.read_write]
    split_ifs with h
    · rw [h.2.1, h.2.2, ho]
    · rfl
  rw [this]

theorem roomCount_eq (g : Grid) : roomCount g = openCount roomCell g := by
  unfold roomCount openCount
  apply List.countP_congr
  intro c _
  unfold isRoom roomCell
  simp only [Bool.and_eq_true, decide_eq_true_eq]
  tauto

/-- When every OPEN cell with exactly one even coordinate lies between two OPEN rooms, the
edges are exactly the OPEN cells with exactly one even coordinate. -/
theorem edgeCount_eq (g : Grid)
    (hfl : ∀ x y, 0 ≤ x → x < 25 → 0 ≤ y → y < 25 → g.read x y = some 0 →
      (x % 2 = 0 → y % 2 = 1 → g.read (x - 1) y = some 0 ∧ g.read (x + 1) y = some 0) ∧
      (x % 2 = 1 → y % 2 = 0 → g.read x (y - 1) = some 0 ∧ g.read x (y + 1) = some 0)) :
    edgeCount g = openCount edgeCell g := by
  unfold edgeCount openCount
  apply List.countP_congr
  intro c hc
  rw [mem_allCells] at hc
  unfold isEdge edgeCell isRoom
  simp only [Bool.and_eq_true, decide_eq_true_eq]
  constructor
  · rintro ⟨ho, h | h⟩
    · exact ⟨Or.inl ⟨h.1, h.2.1⟩, ho⟩
    · exact ⟨Or.inr ⟨h.1, h.2.1⟩, ho⟩
  · rintro ⟨h | h, ho⟩
    · obtain ⟨f1, _⟩ := hfl c.1 c.2 hc.1 hc.2.1 hc.2.2.1 hc.2.2.2 ho
      obtain ⟨o1, o2⟩ := f1 h.1 h.2
      exact ⟨ho, Or.inl ⟨h.1, h.2, ⟨by omega, h.2, o1⟩, ⟨by omega, h.2, o2⟩⟩⟩
    · obtain ⟨_, f2⟩ := hfl c.1 c.2 hc.1 hc.2.1 hc.2.2.1 hc.2.2.2 ho
      obtain ⟨o1, o2⟩ := f2 h.1 h.2
      exact ⟨ho, Or.inr ⟨h.1, h.2, ⟨h.1, by omega, o1⟩, ⟨h.1, by omega, o2⟩⟩⟩

theorem roomCell_false_of_edgeCell (c : Int × Int) (h : edgeCell c = true) :
    roomCell c = false := by
  unfold edgeCell at h
  unfold roomCell
  simp only [decide_eq_true_eq] at h
  simp only [decide_eq_false_iff_not]
  omega

theorem edgeCell_false_of_roomCell (c : Int × Int) (h : roomCell c = true) :
    edgeCell c = false := by
  unfold roomCell at h
  unfold edgeCell
  simp only [decide_eq_true_eq] at h
  simp only [decide_eq_false_iff_not]
  omega

/-- A carve opens one room and one cell between two rooms, both closed before. -/
theorem openCount_carve {g : Grid} {x y : Int} {rest : List (Int × Int)} {dir : Int × Int}
    (h : CarveInv 25 g ((x, y) :: rest)) (hd : dir ∈ validDirections g 25 x y) :
    openCount roomCell
        ((g.write (x + dir.1) (y + dir.2) 0).write (x + dir.1 * 2) (y + dir.2 * 2) 0)
      = openCount roomCell g + 1 ∧
    openCount edgeCell
        ((g.write (x + dir.1) (y + dir.2) 0).write (x + dir.1 * 2) (y + dir.2 * 2) 0)
      = openCount edgeCell g + 1 := by
  obtain ⟨hxo, hyo, hpath⟩ := h.stack_ok (x, y) (List.mem_cons_self _ _)
  simp only [] at hxo hyo
  have hsrc : g.read x y = some 0 := hpath.target_open
  obtain ⟨hc, -, hwall, hbt, hbm⟩ := valid_direction_facts g 25 x y dir hd hsrc
  obtain ⟨htodd, -, -, hflx, hfly, -, -, hmkind, hne⟩ :=
    direction_arith x y dir.1 dir.2 hxo hyo hc
  clear hc hd hpath
  have hmid_kind : edgeCell (x + dir.1, y + dir.2) = true := by
    unfold edgeCell
    simp only [decide_eq_true_eq]
    exact hmkind
  have htgt_kind : roomCell (x + dir.1 * 2, y + dir.2 * 2) = true := by
    unfold roomCell
    simp only [decide_eq_true_eq]
    exact htodd
  have hmid_closed : g.read (x + dir.1) (y + dir.2) ≠ some 0 := by
    intro ho
    obtain ⟨f1, f2, -⟩ := h.flanked (x + dir.1) (y + dir.2) hbm.1 hbm.2.1 hbm.2.2.1 hbm.2.2.2 ho
    have htgt_open : g.read (x + dir.1 * 2) (y + dir.2 * 2) = some 0 := by
      rcases hmkind with ⟨hpar, hpar2⟩ | ⟨hpar, hpar2⟩
      · obtain ⟨e12, e3, e4⟩ := hflx hpar
        obtain ⟨o1, o2⟩ := f1 hpar hpar2
        rcases e12 with ⟨-, e2⟩ | ⟨-, e2⟩
        · rw [e2, e3, e4] at o2; exact o2
        · rw [e2, e3, e4] at o1; exact o1
      · obtain ⟨e12, e3, e4⟩ := hfly hpar2
        obtain ⟨o1, o2⟩ := f2 hpar hpar2
        rcases e12 with ⟨-, e2⟩ | ⟨-, e2⟩
        · rw [e2, e3, e4] at o2; exact o2
        · rw [e2, e3, e4] at o1; exact o1
    rw [hwall] at htgt_open
    exact absurd htgt_open (by decide)
  have htgt_closed : (g.write (x + dir.1) (y + dir.2) 0).read (x + dir.1 * 2) (y + dir.2 * 2)
      ≠ some 0 := by
    rw [Grid.read_write, if_neg (fun hh => hne hh.2), hwall]
    decide
  have hmid_room : ¬ (roomCell (x + dir.1, y + dir.2) = true) := by
    rw [roomCell_false_of_edgeCell _ hmid_kind]
    exact Bool.false_ne_true
  have htgt_edge : ¬ (edgeCell (x + dir.1 * 2, y + dir.2 * 2) = true) := by
    rw [edgeCell_false_of_roomCell _ htgt_kind]
    exact Bool.false_ne_true
  have r1 := openCount_write_closed roomCell _ _ _ hbt htgt_closed
  have r2 := openCount_write_closed roomCell _ _ _ hbm hmid_closed
  have e1 := openCount_write_closed edgeCell _ _ _ hbt htgt_closed
  have e2 := openCount_write_closed edgeCell _ _ _ hbm hmid_closed
  rw [if_pos htgt_kind] at r1
  rw [if_neg hmid_room] at r2
  rw [if_neg htgt_edge] at e1
  rw [if_pos hmid_kind] at e2
  exact ⟨by omega, by omega⟩

theorem openCount_allWall_start (kind : Int × Int → Bool) (g : Grid)
    (hwall : ∀ x y, 0 ≤ x → x < 25 → 0 ≤ y → y < 25 → g.read x y = some 1) :
    openCount kind (g.write 1 1 0) = if kind (1, 1) = true then 1 else 0 := by
  have hzero : openCount kind g = 0 := by
    unfold openCount
    rw [List.countP_eq_zero]
    intro c hc
    rw [mem_allCells] at hc
    rw [hwall c.1 c.2 hc.1 hc.2.1 hc.2.2.1 hc.2.2.2]
    simp
  rw [openCount_write_closed kind g 1 1 (by omega) (by rw [hwall 1 1] <;> simp), hzero,
    Nat.zero_add]

/-- On the full 25 x 25 extent the carved grid has one room more than it has OPEN cells
between rooms. -/
theorem carve_counts (fuel : Nat) (g : Grid) (picks : List Nat) (out : Grid)
    (hwall : ∀ x y, 0 ≤ x → x < 25 → 0 ≤ y → y < 25 → g.read x y = some 1)
    (h : carve fuel 25 g 1 1 picks = some out) :
    CarveInv 25 out [] ∧ openCount edgeCell out + 1 = openCount roomCell out := by
  unfold carve at h
  refine carveLoop_invariant 25
    (fun g0 st => CarveInv 25 g0 st ∧ openCount edgeCell g0 + 1 = openCount roomCell g0)
    ?_ ?_ fuel _ out ?_ h
  · intro g0 x y rest hP hv
    exact ⟨hP.1.pop hv, hP.2⟩
  · intro g0 x y rest dir hP hd
    obtain ⟨hr, he⟩ := openCount_carve hP.1 hd
    refine ⟨hP.1.carve hd, ?_⟩
    rw [hr, he, hP.2]
  · refine ⟨CarveInv.init 25 g hwall, ?_⟩
    simp only []
    rw [openCount_allWall_start _ g hwall, openCount_allWall_start _ g hwall]
    decide

/-! ## The generated maze of a level >= 1 -/

/-- For a level >= 1 the constructor carves the full 25 x 25 extent from an all-WALL grid
and then opens the goal; the carved grid satisfies the loop invariant with the stack empty and
has one room more than it has OPEN cells between rooms. -/
theorem Maze.new_carved (rnd : Rand) (level : Int) (h : 1 ≤ level) :
    ∃ carved,
      carve carveFuel 25 (resetGrid Grid.allWall 25) 1 1 rnd.picks = some carved ∧
      Maze.new rnd level =
        some { grid := carved.write (placeGoal 25 level 1 1 rnd.goalX rnd.goalY).1
                 (placeGoal 25 level 1 1 rnd.goalX rnd.goalY).2 0
               player := ⟨1, 1⟩
               startX := 1
               startY := 1
               endX := (placeGoal 25 level 1 1 rnd.goalX rnd.goalY).1
               endY := (placeGoal 25 level 1 1 rnd.goalX rnd.goalY).2 } ∧
      CarveInv 25 carved [] ∧
      openCount edgeCell carved + 1 = openCount roomCell carved ∧
      carved.read 1 1 = some 0 := by
  obtain ⟨carved, hc, hm⟩ := Maze.new_eq rnd level
  rw [levelExtent_of_pos level h] at hc hm
  have hwall : ∀ x y, 0 ≤ x → x < 25 → 0 ≤ y → y < 25 →
      (resetGrid Grid.allWall 25).read x y = some 1 :=
    fun x y h1 h2 h3 h4 => resetGrid_read Grid.allWall 25 (by omega) x y h1 h2 h3 h4
  obtain ⟨hinv, hcount⟩ := carve_counts _ _ _ _ hwall hc
  exact ⟨carved, hc, hm, hinv, hcount, carve_start_open _ _ _ _ _ hc⟩

/-- Reads of the grid after the goal was opened (line 103). -/
theorem read_goal_write (g : Grid) (gx gy a b : Int)
    (hg : 2 ≤ gx ∧ gx ≤ 23 ∧ 2 ≤ gy ∧ gy ≤ 23) :
    (g.write gx gy 0).read a b = if a = gx ∧ b = gy then some 0 else g.read a b := by
  rw [Grid.read_write]
  by_cases h : a = gx ∧ b = gy
  · rw [if_pos h, if_pos ⟨by omega, h⟩]
  · rw [if_neg h, if_neg (fun hh => h hh.2)]

/-- After the goal was opened, every OPEN cell with exactly one even coordinate still lies
between two OPEN rooms. -/
theorem goal_write_flanked (g : Grid) (gx gy : Int) (hinv : CarveInv 25 g [])
    (hstart : g.read 1 1 = some 0) (hg : 2 ≤ gx ∧ gx ≤ 23 ∧ 2 ≤ gy ∧ gy ≤ 23) :
    ∀ x y, 0 ≤ x → x < 25 → 0 ≤ y → y < 25 → (g.write gx gy 0).read x y = some 0 →
      (x % 2 = 0 → y % 2 = 1 →
        (g.write gx gy 0).read (x - 1) y = some 0 ∧ (g.write gx gy 0).read (x + 1) y = some 0) ∧
      (x % 2 = 1 → y % 2 = 0 →
        (g.write gx gy 0).read x (y - 1) = some 0 ∧ (g.write gx gy 0).read x (y + 1) = some 0) := by
  intro x y h1 h2 h3 h4 ho
  have hmono : ∀ a b, g.read a b = some 0 → (g.write gx gy 0).read a b = some 0 :=
    fun a b hab => Grid.read_write_zero g gx gy a b hab
  by_cases hgoal : x = gx ∧ y = gy
  · obtain ⟨rfl, rfl⟩ := hgoal
    constructor
    · intro he hodd
      exact ⟨hmono _ _ (hinv.room_open hstart (x - 1) y (by omega) hodd (by omega) (by omega)
          (by omega) (by omega)),
        hmono _ _ (hinv.room_open hstart (x + 1) y (by omega) hodd (by omega) (by omega)
          (by omega) (by omega))⟩
    · intro hodd he
      exact ⟨hmono _ _ (hinv.room_open hstart x (y - 1) hodd (by omega) (by omega) (by omega)
          (by omega) (by omega)),
        hmono _ _ (hinv.room_open hstart x (y + 1) hodd (by omega) (by omega) (by omega)
          (by omega) (by omega))⟩
  · rw [read_goal_write g gx gy x y hg, if_neg hgoal] at ho
    obtain ⟨f1, f2, -⟩ := hinv.flanked x y h1 h2 h3 h4 ho
    exact ⟨fun he hodd => ⟨hmono _ _ (f1 he hodd).1, hmono _ _ (f1 he hodd).2⟩,
      fun hodd he => ⟨hmono _ _ (f2 hodd he).1, hmono _ _ (f2 hodd he).2⟩⟩

/-- Rooms and edges of the final grid: opening the goal adds an edge exactly when the goal
has exactly one even coordinate and the carving left it WALL. -/
theorem goal_write_counts (g : Grid) (gx gy : Int) (hinv : CarveInv 25 g [])
    (hstart : g.read 1 1 = some 0) (hg : 2 ≤ gx ∧ gx ≤ 23 ∧ 2 ≤ gy ∧ gy ≤ 23)
    (hcount : openCount edgeCell g + 1 = openCount roomCell g) :
    edgeCount g + 1 = roomCount g ∧
    edgeCount (g.write gx gy 0) + 1 = roomCount (g.write gx gy 0) +
      (if edgeCell (gx, gy) = true ∧ g.read gx gy = some 1 then 1 else 0) := by
  have hfl0 : ∀ x y, 0 ≤ x → x < 25 → 0 ≤ y → y < 25 → g.read x y = some 0 →
      (x % 2 = 0 → y % 2 = 1 → g.read (x - 1) y = some 0 ∧ g.read (x + 1) y = some 0) ∧
      (x % 2 = 1 → y % 2 = 0 → g.read x (y - 1) = some 0 ∧ g.read x (y + 1) = some 0) :=
    fun x y h1 h2 h3 h4 ho =>
      ⟨(hinv.flanked x y h1 h2 h3 h4 ho).1, (hinv.flanked x y h1 h2 h3 h4 ho).2.1⟩
  have hE0 := edgeCount_eq g hfl0
  have hR0 := roomCount_eq g
  have hE1 := edgeCount_eq (g.write gx gy 0) (goal_write_flanked g gx gy hinv hstart hg)
  have hR1 := roomCount_eq (g.write gx gy 0)
  refine ⟨by omega, ?_⟩
  rcases hinv.binary gx gy (by omega) (by omega) (by omega) (by omega) with hopen | hwall
  · have r := openCount_write_open roomCell g gx gy hopen
    have e := openCount_write_open edgeCell g gx gy hopen
    have hno : ¬ (edgeCell (gx, gy) = true ∧ g.read gx gy = some 1) := by
      rw [hopen]
      intro hh
      exact absurd hh.2 (by decide)
    rw [if_neg hno]
    omega
  · have hclosed : g.read gx gy ≠ some 0 := by
      rw [hwall]; decide
    have r := openCount_write_closed roomCell g gx gy (by omega) hclosed
    have e := openCount_write_closed edgeCell g gx gy (by omega) hclosed
    have hnotroom : ¬ (roomCell (gx, gy) = true) := by
      intro hr
      unfold roomCell at hr
      simp only [decide_eq_true_eq] at hr
      have := hinv.room_open hstart gx gy hr.1 hr.2 (by omega) (by omega) (by omega) (by omega)
      exact hclosed this
    rw [if_neg hnotroom] at r
    by_cases hk : edgeCell (gx, gy) = true
    · rw [if_pos hk] at e
      rw [if_pos ⟨hk, hwall⟩]
      omega
    · rw [if_neg hk] at e
      rw [if_neg (fun hh => hk hh.1)]
      omega

/-- C2, as the code has it: for every level >= 1 and every outcome of the random choices,
the grid left by the carving loop has `edge count = room count - 1`, and in the final grid
the edge count exceeds `room count - 1` by one exactly when the goal opened by line 103 has
exactly one even coordinate and the carving left it WALL. On every level that is not a
multiple of 10 the two goal coordinates are equal, so there `edge count = room count - 1`
holds in the final grid. -/
theorem edges_eq_rooms_minus_one (level : Int) (rnd : Rand) (h : 1 ≤ level) :
    ∃ carved m,
      carve carveFuel 25 (resetGrid Grid.allWall 25) 1 1 rnd.picks = some carved ∧
      Maze.new rnd level = some m ∧ m.grid = carved.write m.endX m.endY 0 ∧
      edgeCount carved + 1 = roomCount carved ∧
      edgeCount m.grid + 1 = roomCount m.grid +
        (if edgeCell (m.endX, m.endY) = true ∧ carved.read m.endX m.endY = some 1 then 1
         else 0) ∧
      (Int.tmod level 10 ≠ 0 →
        edgeCount m.grid + 1 = roomCount m.grid ∧ edgeCount m.grid = roomCount m.grid - 1) := by
  obtain ⟨carved, hcarve, hm, hinv, hcount, hstart⟩ := Maze.new_carved rnd level h
  have hg := placeGoal_bounds level rnd.goalX rnd.goalY h
  obtain ⟨hc0, hc1⟩ := goal_write_counts carved _ _ hinv hstart hg hcount
  refine ⟨carved, _, hcarve, hm, rfl, hc0, hc1, ?_⟩
  intro hmod
  simp only [] at hc1 ⊢
  have hne : ¬ (edgeCell ((placeGoal 25 level 1 1 rnd.goalX rnd.goalY).1,
      (placeGoal 25 level 1 1 rnd.goalX rnd.goalY).2) = true ∧
      carved.read (placeGoal 25 level 1 1 rnd.goalX rnd.goalY).1
        (placeGoal 25 level 1 1 rnd.goalX rnd.goalY).2 = some 1) := by
    intro hh
    have hk := hh.1
    rw [placeGoal_fixed level rnd.goalX rnd.goalY h hmod] at hk
    unfold edgeCell at hk
    simp only [decide_eq_true_eq] at hk
    omega
  rw [if_neg hne] at hc1
  omega

theorem edges_eq_rooms_minus_one_witness :
    (1 : Int) ≤ 3 ∧
    ∃ carved m,
      carve carveFuel 25 (resetGrid Grid.allWall 25) 1 1 [1, 0, 2] = some carved ∧
      Maze.new ⟨0, 0, [1, 0, 2]⟩ 3 = some m ∧ m.grid = carved.write m.endX m.endY 0 ∧
      edgeCount carved + 1 = roomCount carved ∧
      edgeCount m.grid + 1 = roomCount m.grid +
        (if edgeCell (m.endX, m.endY) = true ∧ carved.read m.endX m.endY = some 1 then 1
         else 0) ∧
      (Int.tmod 3 10 ≠ 0 →
        edgeCount m.grid + 1 = roomCount m.grid ∧ edgeCount m.grid = roomCount m.grid - 1) :=
  ⟨by decide, edges_eq_rooms_minus_one 3 ⟨0, 0, [1, 0, 2]⟩ (by decide)⟩

set_option maxRecDepth 100000 in
/-- C2 fails as stated: on level 10, with the goal drawn at `(4, 3)` and the picks
`demoPicks`, the carving leaves `(4, 3)` WALL between the rooms `(3, 3)` and `(5, 3)`;
opening the goal closes a cycle and the final grid has 144 rooms and 144 edges. -/
theorem edges_eq_rooms_minus_one_fails_on_level_10 :
    ∃ m, Maze.new ⟨2, 1, demoPicks⟩ 10 = some m ∧ m.endX = 4 ∧ m.endY = 3 ∧
      roomCount m.grid = 144 ∧ edgeCount m.grid = 144 ∧
      ¬ (edgeCount m.grid = roomCount m.grid - 1) := by
  have hgoal : placeGoal 25 10 1 1 2 1 = (4, 3) := by decide!
  have hr : roomCount (demoCarved.write 4 3 0) = 144 := by decide!
  have hwall : ∀ x y, 0 ≤ x → x < 25 → 0 ≤ y → y < 25 →
      (resetGrid Grid.allWall 25).read x y = some 1 :=
    fun x y h1 h2 h3 h4 => resetGrid_read Grid.allWall 25 (by omega) x y h1 h2 h3 h4
  obtain ⟨hinv, hcount⟩ := carve_counts _ _ _ _ hwall carve_demo
  have hstart := carve_start_open _ _ _ _ _ carve_demo
  have hc := (goal_write_counts demoCarved 4 3 hinv hstart (by omega) hcount).2
  have hif : (edgeCell (4, 3) = true ∧ demoCarved.read 4 3 = some 1) := by decide!
  rw [if_pos hif] at hc
  have he : edgeCount (demoCarved.write 4 3 0) = 144 := by omega
  refine ⟨_, Maze.new_demo 10 (by decide) 2 1, ?_⟩
  rw [hgoal]
  simp only []
  rw [hr, he]
  decide

/-- A cell other than the source whose four neighbours are all not OPEN is on no path. -/
theorem not_openPath_of_walled_in (g : Grid) (p q : Int × Int) (hne : p ≠ q)
    (h1 : g.read (q.1 - 1) q.2 ≠ some 0) (h2 : g.read (q.1 + 1) q.2 ≠ some 0)
    (h3 : g.read q.1 (q.2 - 1) ≠ some 0) (h4 : g.read q.1 (q.2 + 1) ≠ some 0) :
    ¬ OpenPath g p q := by
  intro hp
  cases hp with
  | start _ => exact hne rfl
  | step r _ hpr hadj _ =>
    have hro := hpr.target_open
    unfold Adjacent at hadj
    rcases hadj with ⟨e1, e2 | e2⟩ | ⟨e1, e2 | e2⟩
    · apply h4
      rw [e1, e2] at hro; exact hro
    · apply h3
      have e3 : r.2 = q.2 - 1 := by omega
      rw [e1, e3] at hro; exact hro
    · apply h2
      rw [e1, e2] at hro; exact hro
    · apply h1
      have e3 : r.1 = q.1 - 1 := by omega
      rw [e1, e3] at hro; exact hro

set_option maxRecDepth 100000 in
/-- C1 at a failing input: level 1 with the raw picks `demoPicks`, that is
`[0, 0, 1, 0, 1, 1, 1, 1, 2, 0, 1, 0]` (then 0). The goal is `(4, 4)`; the rooms `(3, 3)`,
`(5, 3)`, `(3, 5)`, `(5, 5)` around it are reached along other corridors, its four neighbours
stay WALL, and the forced-open goal is an OPEN cell with no path of OPEN cells to the start
`(1, 1)`. -/
theorem goal_unreachable_on_level_1 :
    ∃ m, Maze.new ⟨0, 0, demoPicks⟩ 1 = some m ∧
      m.endX = 4 ∧ m.endY = 4 ∧ m.grid.read m.endX m.endY = some 0 ∧
      ¬ OpenPath m.grid (1, 1) (m.endX, m.endY) := by
  refine ⟨_, Maze.new_demo 1 (by decide) 0 0, ?_, ?_, ?_, ?_⟩
  · decide!
  · decide!
  · decide!
  · apply not_openPath_of_walled_in
    · decide!
    · decide!
    · decide!
    · decide!
    · decide!

/-- For every level >= 1 and every outcome of the random choices: every OPEN cell of the
final grid other than the goal is joined to the start `(1, 1)` by a path of OPEN cells, and
the goal is joined to the start exactly when one of its four neighbours is OPEN, which is
the case whenever both goal coordinates are odd. -/
theorem open_cells_connected_up_to_goal (level : Int) (rnd : Rand) (h : 1 ≤ level) :
    ∃ m, Maze.new rnd level = some m ∧
      (∀ x y, m.grid.read x y = some 0 → (x, y) ≠ (m.endX, m.endY) →
        OpenPath m.grid (1, 1) (x, y)) ∧
      (OpenPath m.grid (1, 1) (m.endX, m.endY) ↔
        ∃ r, Adjacent r (m.endX, m.endY) ∧ m.grid.read r.1 r.2 = some 0) ∧
      (m.endX % 2 = 1 → m.endY % 2 = 1 → OpenPath m.grid (1, 1) (m.endX, m.endY)) := by
  obtain ⟨carved, -, hm, hinv, -, hstart⟩ := Maze.new_carved rnd level h
  have hg := placeGoal_bounds level rnd.goalX rnd.goalY h
  refine ⟨_, hm, ?_⟩
  simp only []
  generalize (placeGoal 25 level 1 1 rnd.goalX rnd.goalY).1 = gx at hg ⊢
  generalize (placeGoal 25 level 1 1 rnd.goalX rnd.goalY).2 = gy at hg ⊢
  have hmono : ∀ a b, carved.read a b = some 0 → (carved.write gx gy 0).read a b = some 0 :=
    fun a b hab => Grid.read_write_zero carved gx gy a b hab
  have hgoal_open : (carved.write gx gy 0).read gx gy = some 0 := by
    rw [read_goal_write carved gx gy gx gy hg, if_pos ⟨rfl, rfl⟩]
  have hothers : ∀ x y, (carved.write gx gy 0).read x y = some 0 → (x, y) ≠ (gx, gy) →
      OpenPath (carved.write gx gy 0) (1, 1) (x, y) := by
    intro x y ho hne
    have hb := (Grid.read_eq_some_iff_bounds _ x y).mp (by rw [ho]; rfl)
    rw [read_goal_write carved gx gy x y hg,
      if_neg (fun hh => hne (Prod.ext hh.1 hh.2))] at ho
    exact (hinv.connected x y hb.1 hb.2.1 hb.2.2.1 hb.2.2.2 ho).mono hmono
  refine ⟨hothers, ⟨?_, ?_⟩, ?_⟩
  · intro hp
    cases hp with
    | start _ => omega
    | step r _ hpr hadj _ => exact ⟨r, hadj, hpr.target_open⟩
  · rintro ⟨r, hadj, hro⟩
    have hne : (r.1, r.2) ≠ (gx, gy) := by
      intro heq
      simp only [Prod.mk.injEq] at heq
      unfold Adjacent at hadj
      simp only [] at hadj
      omega
    exact OpenPath.step _ _ _ (hothers r.1 r.2 hro hne) hadj hgoal_open
  · intro hx hy
    have hopen := hinv.room_open hstart gx gy hx hy (by omega) (by omega) (by omega) (by omega)
    exact (hinv.connected gx gy (by omega) (by omega) (by omega) (by omega) hopen).mono hmono

end MazeGame
